import Mathlib

/-!
Verification of the multi-tenant DQL merge engine (`src/multi-tenant.ts`,
first listing, lines 1-232 — the other listings in the repository are
near-duplicate copies of the same logic; the claims cite the first one).

The JavaScript code is shallowly embedded: JSON-shaped runtime values become
the inductive `JVal` (with an explicit `undef` constructor, since plain JS
`undefined` flows through the merge logic), JS numbers become `JsNum`
(an exact rational together with NaN and the two infinities; this is faithful
to IEEE doubles except for rounding at extreme magnitudes, which none of the
claims exercise), and each source function becomes a Lean definition of the
same name.
-/

namespace DtDash

/-- JS number values: NaN, +Infinity, -Infinity, or a finite value.
Finite values are modelled exactly as rationals. -/
inductive JsNum where
  | nan
  | inf
  | negInf
  | fin (q : ℚ)
deriving DecidableEq, Repr

/-- JSON-shaped JS runtime values. `undef` is JS `undefined` (reachable in the
merge code through missing-field access); `obj` keeps the insertion order of
keys, as JS objects do. -/
inductive JVal where
  | null
  | undef
  | bool (b : Bool)
  | num (x : JsNum)
  | str (s : String)
  | arr (elems : List JVal)
  | obj (fields : List (String × JVal))

namespace JVal

/-- JS truthiness: `undefined`, `null`, `false`, `0`, `NaN` and `""` are falsy. -/
def truthy : JVal → Bool
  | null => false
  | undef => false
  | bool b => b
  | num .nan => false
  | num (.fin q) => decide (q ≠ 0)
  | num _ => true
  | str s => decide (s ≠ "")
  | arr _ => true
  | obj _ => true

/-- `undefined` or `null` (the values the JS `??` and `?.` operators test for). -/
def isNullish : JVal → Bool
  | null => true
  | undef => true
  | _ => false

end JVal

/-- First value bound to `key` in an association list of object fields. -/
def lookupField : List (String × JVal) → String → Option JVal
  | [], _ => none
  | p :: rest, key => if p.1 = key then some p.2 else lookupField rest key

/-- JS property read `o[key]` as used by the merge code: a field of an object,
`undefined` otherwise.  (The code never reads index or `length` properties of
strings or arrays.) -/
def getField : JVal → String → JVal
  | .obj fields, key => (lookupField fields key).getD .undef
  | _, _ => (.undef)

/-- The own enumerable entries a value contributes to an object spread
`{...v}`: an object's fields, an array's or string's indexed elements,
nothing for primitives. -/
def spreadFields : JVal → List (String × JVal)
  | .obj fields => fields
  | .arr elems => (elems.enum.map fun p => (toString p.1, p.2))
  | .str s => (s.data.enum.map fun p => (toString p.1, JVal.str (String.mk [p.2])))
  | _ => []

/-- Setting `key` in a field list with JS object-literal semantics: an existing
key keeps its position and is overwritten (every duplicate, though JS objects
never carry duplicates), a new key is appended. -/
def setFields (l : List (String × JVal)) (key : String) (v : JVal) :
    List (String × JVal) :=
  if l.any (fun p => p.1 = key) then
    l.map (fun p => if p.1 = key then (key, v) else p)
  else l ++ [(key, v)]

/-- One `target[key] = value` assignment (or one spread entry) folded into an
object under construction. -/
def setInto (acc : List (String × JVal)) (e : String × JVal) : List (String × JVal) :=
  setFields acc e.1 e.2

/-- JS property assignment `o.key = v` on an object; identity on anything else
(the merge code only assigns onto values it has just built as object literals;
the one data-dependent exception is guarded by the sanity hypothesis of the
C1 theorem). -/
def jsSet (o : JVal) (key : String) (v : JVal) : JVal :=
  match o with
  | .obj fields => .obj (setFields fields key v)
  | other => other

/-- JS `a || b`. -/
def jsOr (a b : JVal) : JVal := if a.truthy then a else b

/-- JS `a ?? b`. -/
def nullishOr (a b : JVal) : JVal := if a.isNullish then b else a

/-- JS optional chaining `a?.key`. -/
def optChain (a : JVal) (key : String) : JVal :=
  if a.isNullish then .undef else getField a key

/-! ### JS numeric coercion (`Number(v)`), addition, min and max -/

def digitVal (c : Char) : Nat := c.toNat - 48

def isHexDigitChar (c : Char) : Bool :=
  c.isDigit || ('a' ≤ c && c ≤ 'f') || ('A' ≤ c && c ≤ 'F')

def hexVal (c : Char) : Nat :=
  if c.isDigit then digitVal c
  else if 'a' ≤ c && c ≤ 'f' then c.toNat - 97 + 10
  else c.toNat - 65 + 10

def natOfDigits (l : List Char) : Nat :=
  l.foldl (fun a c => a * 10 + digitVal c) 0

def natOfHex (l : List Char) : Nat :=
  l.foldl (fun a c => a * 16 + hexVal c) 0

def natOfRadix (r : Nat) (l : List Char) : Nat :=
  l.foldl (fun a c => a * r + digitVal c) 0

/-- Optional exponent suffix of a decimal numeric literal: either nothing,
or `e`/`E`, an optional sign and at least one digit. -/
def applyExpo (m : ℚ) : List Char → Option ℚ
  | [] => some m
  | e :: rest =>
    if e = 'e' || e = 'E' then
      let (sgn, ds) : ℤ × List Char :=
        match rest with
        | '+' :: t => (1, t)
        | '-' :: t => (-1, t)
        | t => (1, t)
      if ds ≠ [] && ds.all Char.isDigit then
        some (m * (10 : ℚ) ^ (sgn * (natOfDigits ds : ℤ)))
      else none
    else none

/-- Unsigned decimal literal: `digits`, `digits.digits?` or `.digits`, with an
optional exponent. -/
def parseDec (l : List Char) : Option ℚ :=
  let ip := l.takeWhile Char.isDigit
  let rest := l.dropWhile Char.isDigit
  match rest with
  | [] => if ip = [] then none else some ((natOfDigits ip : ℚ))
  | '.' :: rest2 =>
    let fp := rest2.takeWhile Char.isDigit
    let rest3 := rest2.dropWhile Char.isDigit
    if ip = [] && fp = [] then none
    else applyExpo ((natOfDigits (ip ++ fp) : ℚ) / (10 : ℚ) ^ fp.length) rest3
  | _ => if ip = [] then none else applyExpo ((natOfDigits ip : ℚ)) rest

/-- Decimal literal with an optional leading sign. -/
def parseSignedDec (l : List Char) : Option ℚ :=
  match l with
  | '+' :: t => parseDec t
  | '-' :: t => (parseDec t).map Neg.neg
  | t => parseDec t

/-- Whitespace trim at both ends (JS trims a slightly larger set of Unicode
whitespace; the code never meets such strings). -/
def trimStr (s : String) : String :=
  String.mk (((s.data.dropWhile Char.isWhitespace).reverse.dropWhile
    Char.isWhitespace).reverse)

/-- JS `Number(string)`: trimmed; empty means 0; `Infinity` forms; `0x`/`0o`/`0b`
radix literals; otherwise a signed decimal literal; anything else is NaN. -/
def strToNumber (s : String) : JsNum :=
  let t := trimStr s
  if t = "" then .fin 0
  else if t = "Infinity" || t = "+Infinity" then .inf
  else if t = "-Infinity" then .negInf
  else
    match t.data with
    | '0' :: c :: rest =>
      if c = 'x' || c = 'X' then
        if rest ≠ [] && rest.all isHexDigitChar then .fin ((natOfHex rest : ℚ)) else .nan
      else if c = 'o' || c = 'O' then
        if rest ≠ [] && rest.all (fun d => '0' ≤ d && d ≤ '7') then
          .fin ((natOfRadix 8 rest : ℚ))
        else .nan
      else if c = 'b' || c = 'B' then
        if rest ≠ [] && rest.all (fun d => d = '0' || d = '1') then
          .fin ((natOfRadix 2 rest : ℚ))
        else .nan
      else
        match parseSignedDec t.data with
        | some q => .fin q
        | none => .nan
    | l =>
      match parseSignedDec l with
      | some q => .fin q
      | none => .nan

/-- JS `Number(v)`.  An array converts through its joined string form; the
cases below reproduce that composite (a singleton of a number or numeric
string round-trips, a multi-element join contains a comma and is NaN). -/
def jsToNumber : JVal → JsNum
  | .null => .fin 0
  | .undef => .nan
  | .bool b => .fin (if b then 1 else 0)
  | .num x => x
  | .str s => strToNumber s
  | .obj _ => .nan
  | .arr [] => .fin 0
  | .arr [x] =>
    match x with
    | .bool _ => .nan
    | .obj _ => .nan
    | v => jsToNumber v
  | .arr _ => .nan

/-- JS `+` on numbers.  Finite arithmetic is exact (no overflow to infinity at
~1.8e308, which no claim exercises). -/
def jsAdd : JsNum → JsNum → JsNum
  | .nan, _ => .nan
  | _, .nan => .nan
  | .inf, .negInf => .nan
  | .negInf, .inf => .nan
  | .inf, _ => .inf
  | _, .inf => .inf
  | .negInf, _ => .negInf
  | _, .negInf => .negInf
  | .fin a, .fin b => .fin (a + b)

/-- JS `Math.min` on two numbers. -/
def jsMin : JsNum → JsNum → JsNum
  | .nan, _ => .nan
  | _, .nan => .nan
  | .negInf, _ => .negInf
  | _, .negInf => .negInf
  | .inf, b => b
  | a, .inf => a
  | .fin a, .fin b => .fin (min a b)

/-- JS `Math.max` on two numbers. -/
def jsMax : JsNum → JsNum → JsNum
  | .nan, _ => .nan
  | _, .nan => .nan
  | .inf, _ => .inf
  | _, .inf => .inf
  | .negInf, b => b
  | a, .negInf => a
  | .fin a, .fin b => .fin (max a b)

/-- JS `Number.isFinite`. -/
def isFiniteJs : JsNum → Bool
  | .fin _ => true
  | _ => false

/-! ### JS string coercion (`String(v)`), used by the type inferencer's
digit-string test -/

/-- JS number-to-string.  Integers print as plain digit strings (JS switches to
exponent form only at 1e21, beyond every claim's inputs); non-integral
rationals print as `num/den`, which like JS's decimal form never passes the
all-digits test that is this function's only consumer. -/
def numToString : JsNum → String
  | .nan => "NaN"
  | .inf => "Infinity"
  | .negInf => "-Infinity"
  | .fin q => if q.den = 1 then toString q.num else toString q

mutual

/-- JS `String(v)`. -/
def jsToString : JVal → String
  | .null => "null"
  | .undef => "undefined"
  | .bool b => cond b "true" "false"
  | .num x => numToString x
  | .str s => s
  | .obj _ => "[object Object]"
  | .arr xs => String.intercalate "," (jsToStringList xs)

/-- `Array.prototype.join`'s element strings: `null` and `undefined` join as
empty strings. -/
def jsToStringList : List JVal → List String
  | [] => []
  | .null :: rest => "" :: jsToStringList rest
  | .undef :: rest => "" :: jsToStringList rest
  | x :: rest => jsToString x :: jsToStringList rest

end

/-! ### `deepClone` = `JSON.parse(JSON.stringify(v))` -/

mutual

/-- JSON round-trip: non-finite numbers become `null`; object entries whose
value is `undefined` are dropped; `undefined` array elements become `null`. -/
def deepClone : JVal → JVal
  | .null => .null
  | .undef => .undef
  | .bool b => .bool b
  | .num (.fin q) => .num (.fin q)
  | .num _ => .null
  | .str s => .str s
  | .arr xs => .arr (deepCloneList xs)
  | .obj fs => .obj (deepCloneFields fs)

def deepCloneList : List JVal → List JVal
  | [] => []
  | .undef :: rest => .null :: deepCloneList rest
  | x :: rest => deepClone x :: deepCloneList rest

def deepCloneFields : List (String × JVal) → List (String × JVal)
  | [] => []
  | (_, .undef) :: rest => deepCloneFields rest
  | (k, v) :: rest => (k, deepClone v) :: deepCloneFields rest

end

/-! ### Calendar arithmetic: `Date.parse` (ISO-8601 date-time format) and
`Date#toISOString` -/

/-- Proleptic-Gregorian leap-year test (`Int` years, so pre-1970 timestamps
work). -/
def isLeap (y : ℤ) : Bool := y % 4 = 0 && (y % 100 ≠ 0 || y % 400 = 0)

def daysInMonth (y : ℤ) (m : Nat) : Nat :=
  if m = 2 then (if isLeap y then 29 else 28)
  else if m = 4 || m = 6 || m = 9 || m = 11 then 30
  else 31

/-- Days since the Unix epoch of a civil date (standard era-based algorithm). -/
def daysFromCivil (y : ℤ) (m d : Nat) : ℤ :=
  let y' : ℤ := if m ≤ 2 then y - 1 else y
  let era : ℤ := Int.fdiv y' 400
  let yoe : Nat := (y' - era * 400).toNat
  let mp : Nat := if m > 2 then m - 3 else m + 9
  let doy : Nat := (153 * mp + 2) / 5 + d - 1
  let doe : Nat := yoe * 365 + yoe / 4 - yoe / 100 + doy
  era * 146097 + (doe : ℤ) - 719468

/-- Civil date (year, month, day) of a days-since-epoch count. -/
def civilFromDays (z : ℤ) : ℤ × Nat × Nat :=
  let z' : ℤ := z + 719468
  let era : ℤ := Int.fdiv z' 146097
  let doe : Nat := (z' - era * 146097).toNat
  let yoe : Nat := (doe - doe / 1460 + doe / 36524 - doe / 146096) / 365
  let doy : Nat := doe - (365 * yoe + yoe / 4 - yoe / 100)
  let mp : Nat := (5 * doy + 2) / 153
  let d : Nat := doy - (153 * mp + 2) / 5 + 1
  let m : Nat := if mp < 10 then mp + 3 else mp - 9
  ((yoe : ℤ) + era * 400 + (if m ≤ 2 then 1 else 0), m, d)

/-- Exactly `n` decimal digits, returning their value and the rest. -/
def pDigitsAux : Nat → Nat → List Char → Option (Nat × List Char)
  | 0, acc, l => some (acc, l)
  | n + 1, acc, c :: l =>
    if c.isDigit then pDigitsAux n (acc * 10 + digitVal c) l else none
  | _ + 1, _, [] => none

def pDigits (n : Nat) (l : List Char) : Option (Nat × List Char) :=
  pDigitsAux n 0 l

/-- The year of an ISO date string: `±YYYYYY` (extended; `-000000` is
rejected) or `YYYY`. -/
def pYear : List Char → Option (ℤ × List Char)
  | '+' :: l => (pDigits 6 l).map (fun p => ((p.1 : ℤ), p.2))
  | '-' :: l =>
    (pDigits 6 l).bind (fun p => if p.1 = 0 then none else some ((-(p.1 : ℤ)), p.2))
  | l => (pDigits 4 l).map (fun p => ((p.1 : ℤ), p.2))

/-- `.sss` millisecond fraction, or nothing. -/
def pFrac : List Char → Option (Nat × List Char)
  | '.' :: l => pDigits 3 l
  | l => some (0, l)

/-- Offset suffix: `Z`, `±HH:mm`, or nothing (`none` in the triple's first
slot meaning "no offset present"). -/
def pOffset : List Char → Option (Option ℤ × List Char)
  | [] => some (none, [])
  | 'Z' :: l => some (some 0, l)
  | c :: l =>
    if c = '+' || c = '-' then
      (pDigits 2 l).bind fun ph =>
        match ph.2 with
        | ':' :: l2 =>
          (pDigits 2 l2).bind fun pm =>
            if ph.1 ≤ 23 && pm.1 ≤ 59 then
              some (some ((if c = '-' then -1 else 1) * ((ph.1 : ℤ) * 60 + pm.1)), pm.2)
            else none
        | _ => none
    else none

/-- `:ss(.sss)?` seconds part, or nothing. -/
def pSeconds : List Char → Option (Nat × Nat × List Char)
  | ':' :: l =>
    (pDigits 2 l).bind fun ps =>
      (pFrac ps.2).map fun pf => (ps.1, pf.1, pf.2)
  | l => some (0, 0, l)

/-- Time-of-day and offset: `THH:mm(:ss(.sss))?(Z|±HH:mm)?`. -/
def pTime (l : List Char) : Option (Nat × Nat × Nat × Nat × Option ℤ) :=
  match l with
  | 'T' :: l1 =>
    (pDigits 2 l1).bind fun ph =>
      match ph.2 with
      | ':' :: l2 =>
        (pDigits 2 l2).bind fun pm =>
          (pSeconds pm.2).bind fun pssf =>
            (pOffset pssf.2.2).bind fun po =>
              match po.2 with
              | [] => some (ph.1, pm.1, pssf.1, pssf.2.1, po.1)
              | _ => none
      | _ => none
  | _ => none

/-- The ECMA-262 Date-Time-String-Format parse of an ISO string, in epoch
milliseconds.  A date-time without an offset is treated as UTC (in JS that
case depends on the host timezone; no theorem relies on it).  Strings outside
this format — including the engine-specific legacy formats some JS engines
additionally accept — parse to `none`. -/
def parseISO (l : List Char) : Option ℤ :=
  (pYear l).bind fun py =>
    let y := py.1
    let afterY := py.2
    let dmd : Option (Nat × Nat × List Char) :=
      match afterY with
      | '-' :: l1 =>
        (pDigits 2 l1).bind fun pm =>
          match pm.2 with
          | '-' :: l2 => (pDigits 2 l2).map fun pd => (pm.1, pd.1, pd.2)
          | rest => some (pm.1, 1, rest)
      | rest => some (1, 1, rest)
    dmd.bind fun (m, d, afterD) =>
      if 1 ≤ m && m ≤ 12 && 1 ≤ d && d ≤ daysInMonth y m then
        let tp : Option (Nat × Nat × Nat × Nat × Option ℤ) :=
          match afterD with
          | [] => some (0, 0, 0, 0, some 0)
          | rest => pTime rest
        tp.bind fun (hh, mi, ss, ms, off) =>
          if (hh ≤ 23 || (hh = 24 && mi = 0 && ss = 0 && ms = 0)) && mi ≤ 59 && ss ≤ 59 then
            some (daysFromCivil y m d * 86400000 + (hh : ℤ) * 3600000 +
              (mi : ℤ) * 60000 + (ss : ℤ) * 1000 + (ms : ℤ) -
              (off.getD 0) * 60000)
          else none
      else none

/-- JS `Date.parse`, including the final range clip to ±8.64e15 ms. -/
def dateParse (s : String) : JsNum :=
  match parseISO s.data with
  | some ms => if ms.natAbs ≤ 8640000000000000 then .fin ((ms : ℚ)) else .nan
  | none => .nan

def padDigits (w n : Nat) : String :=
  String.mk ((List.range w).reverse.map fun i => Char.ofNat (48 + n / 10 ^ i % 10))

/-- `Date#toISOString` of an epoch-millisecond count: `YYYY-MM-DDTHH:mm:ss.sssZ`
with a signed six-digit year outside 0..9999.  (JS throws a RangeError beyond
±8.64e15 ms; the merge code only reaches this through values `Date.parse`
produced, which are clipped to that range.) -/
def isoString (ms : ℤ) : String :=
  let day := Int.fdiv ms 86400000
  let rem := (ms - day * 86400000).toNat
  let c := civilFromDays day
  let y := c.1
  let ys :=
    if 0 ≤ y && y ≤ 9999 then padDigits 4 y.toNat
    else if y > 9999 then "+" ++ padDigits 6 y.toNat
    else "-" ++ padDigits 6 (-y).toNat
  ys ++ "-" ++ padDigits 2 c.2.1 ++ "-" ++ padDigits 2 c.2.2 ++ "T" ++
    padDigits 2 (rem / 3600000) ++ ":" ++ padDigits 2 (rem / 60000 % 60) ++ ":" ++
    padDigits 2 (rem / 1000 % 60) ++ "." ++ padDigits 3 (rem % 1000) ++ "Z"

/-- Truncation toward zero, as JS `Date` applies to a non-integral time value. -/
def truncRat (q : ℚ) : ℤ := q.num / (q.den : ℤ)

/-- The `iso` helper of `globalTimeframe` (`(ms) => new Date(ms).toISOString()`),
applied only behind the `Number.isFinite` guard; the non-finite branch is
unreachable there. -/
def isoOfJsNum : JsNum → String
  | .fin q => isoString (truncRat q)
  | _ => ""

/-! ### The normalizer (`asArray`, `normalize`) -/

/-- `const asArray = (v) => (Array.isArray(v) ? v : v ? [v] : [])`. -/
def asArray : JVal → List JVal
  | .arr xs => xs
  | v => if v.truthy then [v] else []

/-- `const parseTs = (s) => (typeof s === "string" ? Date.parse(s) : Number(s))`. -/
def parseTs : JVal → JsNum
  | .str s => dateParse s
  | v => jsToNumber v

/-- The payload envelope `json?.result ?? json ?? {}`. -/
def unwrapResult (json : JVal) : JVal :=
  nullishOr (optChain json "result") (nullishOr json (.obj []))

structure Normalized where
  records : List JVal
  types : List JVal
  metadata : JVal
  metrics : List JVal

/-- `normalize` (src/multi-tenant.ts lines 13-21). -/
def normalize (json : JVal) : Normalized :=
  let r := unwrapResult json
  { records := asArray (getField r "records")
    types := asArray (getField r "types")
    metadata := nullishOr (getField r "metadata") (.obj [])
    metrics := asArray (getField r "metrics") }

/-! ### The timeframe widener (`globalTimeframe`, lines 23-43) -/

def recStart (rec : JVal) : JsNum := parseTs (optChain (optChain rec "timeframe") "start")

def recEnd (rec : JVal) : JsNum := parseTs (optChain (optChain rec "timeframe") "end")

/-- One iteration of the widening loop over `(minS, maxE)`. -/
def tfStep (acc : JsNum × JsNum) (rec : JVal) : JsNum × JsNum :=
  ((if isFiniteJs (recStart rec) then jsMin acc.1 (recStart rec) else acc.1),
   (if isFiniteJs (recEnd rec) then jsMax acc.2 (recEnd rec) else acc.2))

/-- The whole loop, from `minS = Infinity, maxE = -Infinity`. -/
def tfFold (records : List JVal) : JsNum × JsNum :=
  records.foldl tfStep (.inf, .negInf)

/-- `const grail = baseMeta?.grail ?? {}`. -/
def grailBaseOf (baseMeta : JVal) : JVal := nullishOr (optChain baseMeta "grail") (.obj [])

def globalTimeframe (records : List JVal) (baseMeta : JVal) : JVal :=
  let mm := tfFold records
  let grail := grailBaseOf baseMeta
  .obj (setFields (spreadFields baseMeta) "grail"
    (.obj (setFields (spreadFields grail) "analysisTimeframe"
      (if isFiniteJs mm.1 && isFiniteJs mm.2 then
        .obj [("start", .str (isoOfJsNum mm.1)), ("end", .str (isoOfJsNum mm.2))]
      else getField grail "analysisTimeframe"))))

/-! ### The type inferencer (`inferTypesFromRecord`, lines 46-69) -/

/-- JS `key in v` for the values the inferencer's guard lets through. -/
def hasKeyJs : JVal → String → Bool
  | .obj fs, k => fs.any (fun p => p.1 = k)
  | .arr xs, k => (k = "length") || (xs.enum.any fun p => toString p.1 = k)
  | _, _ => false

/-- `typeof v === "object"`. -/
def isObjTypeof : JVal → Bool
  | .obj _ => true
  | .arr _ => true
  | .null => true
  | _ => false

/-- `/^\d+$/.test(s)`. -/
def allDigitsTest (s : String) : Bool := s.data ≠ [] && s.data.all Char.isDigit

/-- The type entry the inferencer assigns to one record field. -/
def inferEntry (k : String) (v : JVal) : JVal :=
  if k = "timeframe" && v.truthy && isObjTypeof v && hasKeyJs v "start" && hasKeyJs v "end" then
    .obj [("type", .str "timeframe")]
  else if k = "interval" && ((match v with | .num _ => true | _ => false) || allDigitsTest (jsToString v)) then
    .obj [("type", .str "duration")]
  else
    match v with
    | .arr xs =>
      .obj [("type", .str "array"),
            ("types", .arr [.obj
              [("indexRange", .arr [.num (.fin 0), .num (.fin ((xs.length - 1 : Nat) : ℚ))]),
               ("mappings", .obj [("element", .obj [("type", .str
                 (match xs.find? (fun x => !x.isNullish) with
                  | some (.num _) => "double"
                  | _ => "string"))])])]])]
    | _ => .obj [("type", .str "string")]

/-- The `mappings` object accumulated over `Object.entries(sample ?? {})`. -/
def inferMappings (entries : List (String × JVal)) : List (String × JVal) :=
  entries.foldl (fun acc kv => setFields acc kv.1 (inferEntry kv.1 kv.2)) []

def inferTypesFromRecord (sample : JVal) : List JVal :=
  [.obj [("indexRange", .arr [.num (.fin 0), .num (.fin 1)]),
         ("mappings", .obj (inferMappings (spreadFields (nullishOr sample (.obj [])))))]]

/-! ### The BY-clause rewrite (`addTenantToBy`, lines 179-188) -/

/-- `String.prototype.split` on a separator predicate (empty pieces kept,
as in JS). -/
def splitCharsAux (p : Char → Bool) : List Char → List Char → List (List Char)
  | [], acc => [acc.reverse]
  | c :: rest, acc =>
    if p c then acc.reverse :: splitCharsAux p rest []
    else splitCharsAux p rest (c :: acc)

/-- `g1.split(",").map(s => s.trim()).filter(Boolean)`. -/
def splitParts (inside : String) : List String :=
  ((splitCharsAux (fun c => c = ',') inside.data []).map
    (fun cs => trimStr (String.mk cs))).filter (fun piece => piece ≠ "")

/-- `if (!parts.includes("tenant")) parts.push("tenant")`. -/
def withTenantParts (parts : List String) : List String :=
  if parts.contains "tenant" then parts else parts ++ ["tenant"]

/-- Attempt to match the regex `by:\s*\{\s*([^}]*)\s*\}` (flag `i`) at the head
of the character list, returning the captured group (the `\s*` framing inside
the braces is kept in the capture; it is erased by the `trim` every consumer
applies) and the characters after the match. -/
def matchBy (cs : List Char) : Option (List Char × List Char) :=
  match cs with
  | b :: y :: c :: rest =>
    if (b = 'b' || b = 'B') && (y = 'y' || y = 'Y') && c = ':' then
      match rest.dropWhile Char.isWhitespace with
      | '{' :: rest2 =>
        match rest2.dropWhile (fun ch => ch ≠ '}') with
        | '}' :: suf => some (rest2.takeWhile (fun ch => ch ≠ '}'), suf)
        | _ => none
      | _ => none
    else none
  | _ => none

/-- Leftmost match of the regex in the whole string: prefix before the match,
captured group, suffix after the match. -/
def findBy : List Char → Option (List Char × List Char × List Char)
  | [] => none
  | c :: cs =>
    match matchBy (c :: cs) with
    | some (inside, suf) => some ([], inside, suf)
    | none =>
      match findBy cs with
      | some (pre, inside, suf) => some (c :: pre, inside, suf)
      | none => none

/-- `txt.replace(/by:\s*\{\s*([^}]*)\s*\}/i, ...)`: `String.replace` with a
non-global regex rewrites only the leftmost match and keeps everything else
byte-for-byte. -/
def rewriteBy (s : String) : String :=
  match findBy s.data with
  | none => s
  | some (pre, inside, suf) =>
    String.mk pre ++ "by:\x7b" ++
      String.intercalate ", " (withTenantParts (splitParts (String.mk inside))) ++
      "\x7d" ++ String.mk suf

/-- `addTenantToBy`: only strings are rewritten (`typeof txt === "string"`). -/
def addTenantToBy : JVal → JVal
  | .str s => .str (rewriteBy s)
  | v => v

/-! ### The merger (`mergeMultiTenant`, lines 103-192) -/

structure TenantInput where
  tenant : String
  json : JVal

structure NormTenant where
  tenant : String
  records : List JVal
  types : List JVal
  metadata : JVal
  metrics : List JVal

/-- `{...r, tenant}`: spread the row, then overwrite/append the `tenant` key. -/
def stampTenant (tenant : String) (r : JVal) : JVal :=
  .obj (setFields (spreadFields r) "tenant" (.str tenant))

/-- One element of `normalized` (lines 107-112). -/
def normTenant (inp : TenantInput) : NormTenant :=
  let n := normalize inp.json
  { tenant := inp.tenant
    records := n.records.map (stampTenant inp.tenant)
    types := n.types
    metadata := n.metadata
    metrics := n.metrics }

/-- `const g = n.metadata?.grail || {}`. -/
def grailOfMeta (md : JVal) : JVal := jsOr (optChain md "grail") (.obj [])

/-- `const sr = Number(g.scannedRecords || 0)`. -/
def srOf (md : JVal) : JsNum :=
  jsToNumber (jsOr (getField (grailOfMeta md) "scannedRecords") (.num (.fin 0)))

/-- `const sb = Number(g.scannedBytes || 0)`. -/
def sbOf (md : JVal) : JsNum :=
  jsToNumber (jsOr (getField (grailOfMeta md) "scannedBytes") (.num (.fin 0)))

/-- `const sdp = Number(g.scannedDataPoints || 0)`. -/
def sdpOf (md : JVal) : JsNum :=
  jsToNumber (jsOr (getField (grailOfMeta md) "scannedDataPoints") (.num (.fin 0)))

/-- `const etm = Number(n.metadata?.executionTimeMilliseconds ||
g.executionTimeMilliseconds || 0)`. -/
def etmOf (md : JVal) : JsNum :=
  jsToNumber (jsOr (optChain md "executionTimeMilliseconds")
    (jsOr (getField (grailOfMeta md) "executionTimeMilliseconds") (.num (.fin 0))))

/-- `totals.x += ...` accumulation over the tenants, from 0. -/
def sumJs (l : List JsNum) : JsNum := l.foldl jsAdd (.fin 0)

/-- The `perTenant[...] = ...` assignments, in execution order. -/
def perTenantEntries (ns : List NormTenant) : List (String × JVal) :=
  ns.flatMap fun n =>
    [("scannedRecords-" ++ n.tenant, .num (srOf n.metadata)),
     ("scannedBytes-" ++ n.tenant, .num (sbOf n.metadata)),
     ("scannedDataPoints-" ++ n.tenant, .num (sdpOf n.metadata)),
     ("executionTimeMilliseconds-" ++ n.tenant, .num (etmOf n.metadata))]

/-- Lines 118-125: clone the first tenant's `types[0]` (defaulting its
`mappings`), or infer a descriptor from the first merged record. -/
def preTenantDescriptor (n0 : NormTenant) (allRecords : List JVal) : JVal :=
  let baseTypes0 := n0.types.headD .undef
  if baseTypes0.truthy then
    let t := deepClone baseTypes0
    jsSet t "mappings" (jsOr (getField t "mappings") (.obj []))
  else
    (inferTypesFromRecord (allRecords.headD .undef)).headD (.undef)

/-- Line 126: `if (!types0?.mappings) types0.mappings = {}`. -/
def withMappings (t : JVal) : JVal :=
  if (optChain t "mappings").truthy then t else jsSet t "mappings" (.obj [])

/-- Line 127: `if (!types0.mappings.tenant) types0.mappings.tenant =
{ type: "string" }` (a nested in-place mutation, modelled functionally). -/
def tenantizedDescriptor (t : JVal) : JVal :=
  let m := getField t "mappings"
  if (getField m "tenant").truthy then t
  else jsSet t "mappings" (jsSet m "tenant" (.obj [("type", .str "string")]))

/-- `(z) => z && z !== "Z"`, the timezone-candidate predicate. -/
def goodTz (z : JVal) : Bool :=
  z.truthy && (match z with | .str s => decide (s ≠ "Z") | _ => true)

structure Merged where
  records : List JVal
  types : List JVal
  metadata : JVal
  metrics : List JVal

/-- `const normalized = responses.map(...)` (lines 107-112). -/
def normalizedList (rs : List TenantInput) : List NormTenant := rs.map normTenant

/-- `const allRecords = normalized.flatMap((n) => n.records)` (line 114). -/
def allRecordsOf (rs : List TenantInput) : List JVal :=
  (normalizedList rs).flatMap NormTenant.records

/-- The merged type descriptor (lines 117-127). -/
def typesDescOf (r0 : TenantInput) (rest : List TenantInput) : JVal :=
  tenantizedDescriptor (withMappings
    (preTenantDescriptor (normTenant r0) (allRecordsOf (r0 :: rest))))

/-- `const baseMeta = normalized[0].metadata || {}` (line 131). -/
def baseMetaOf (r0 : TenantInput) : JVal := jsOr (normTenant r0).metadata (.obj [])

/-- `const baseGrail = baseMeta.grail || {}` (line 132). -/
def baseGrailOf (r0 : TenantInput) : JVal :=
  jsOr (getField (baseMetaOf r0) "grail") (.obj [])

/-- One of the four running totals (lines 134-148), as the fold it accumulates. -/
def totalOf (f : JVal → JsNum) (rs : List TenantInput) : JsNum :=
  sumJs ((normalizedList rs).map fun n => f n.metadata)

/-- `const widened = globalTimeframe(allRecords, baseMeta)` (line 157). -/
def widenedOf (r0 : TenantInput) (rest : List TenantInput) : JVal :=
  globalTimeframe (allRecordsOf (r0 :: rest)) (baseMetaOf r0)

/-- `const tzCandidate = normalized.map(...).find(...)` (line 158). -/
def tzCandOf (rs : List TenantInput) : Option JVal :=
  ((normalizedList rs).map fun n =>
    optChain (optChain n.metadata "grail") "timezone").find? goodTz

/-- `tzCandidate || baseGrail.timezone || "Z"` (line 164). -/
def tzResolvedOf (r0 : TenantInput) (rest : List TenantInput) : JVal :=
  jsOr ((tzCandOf (r0 :: rest)).getD .undef)
    (jsOr (getField (baseGrailOf r0) "timezone") (.str "Z"))

/-- The merged `grail` object literal (lines 162-169): the widened grail's
entries, then `timezone` and the three summed scan counters, then the
per-tenant breakdown entries. -/
def grailObjOf (r0 : TenantInput) (rest : List TenantInput) : JVal :=
  .obj ((perTenantEntries (normalizedList (r0 :: rest))).foldl setInto
    (setFields (setFields (setFields (setFields
      (spreadFields (jsOr (getField (widenedOf r0 rest) "grail") (.obj [])))
      "timezone" (tzResolvedOf r0 rest))
      "scannedRecords" (.num (totalOf srOf (r0 :: rest))))
      "scannedBytes" (.num (totalOf sbOf (r0 :: rest))))
      "scannedDataPoints" (.num (totalOf sdpOf (r0 :: rest)))))

/-- The merged metadata literal (lines 160-172): the widened metadata's
entries, the `grail` literal, and the summed execution time at top level. -/
def metadataPreOf (r0 : TenantInput) (rest : List TenantInput) : JVal :=
  .obj (setFields (setFields (spreadFields (widenedOf r0 rest))
    "grail" (grailObjOf r0 rest)) "executionTimeMilliseconds"
    (.num (totalOf etmOf (r0 :: rest))))

/-- The two BY-clause assignments applied to the merged grail (lines 187-188). -/
def grailRewrittenOf (r0 : TenantInput) (rest : List TenantInput) : JVal :=
  let g0 := grailObjOf r0 rest
  let g1 := jsSet g0 "canonicalQuery" (addTenantToBy (getField g0 "canonicalQuery"))
  jsSet g1 "query" (addTenantToBy (getField g1 "query"))

/-- The final merged metadata (lines 178-189): the two query-text assignments,
behind the `if (metadata?.grail)` guard, mutate `metadata.grail` in place. -/
def metadataFinalOf (r0 : TenantInput) (rest : List TenantInput) : JVal :=
  if (optChain (metadataPreOf r0 rest) "grail").truthy then
    let g0 := getField (metadataPreOf r0 rest) "grail"
    let g1 := jsSet g0 "canonicalQuery" (addTenantToBy (getField g0 "canonicalQuery"))
    let md1 := jsSet (metadataPreOf r0 rest) "grail" g1
    let g2 := jsSet g1 "query" (addTenantToBy (getField g1 "query"))
    jsSet md1 "grail" g2
  else metadataPreOf r0 rest

/-- `mergeMultiTenant` (lines 103-192), assembled from the pieces above. -/
def mergeMultiTenant (responses : List TenantInput) : Merged :=
  match responses with
  | [] => ⟨[], [], .obj [], []⟩
  | r0 :: rest =>
    ⟨allRecordsOf (r0 :: rest), [typesDescOf r0 rest], metadataFinalOf r0 rest,
     (normTenant r0).metrics⟩

/-! ### Association-list lemmas about `setFields` / `lookupField` -/

theorem lookupField_map_set_ne (l : List (String × JVal)) (k : String) (v : JVal)
    (k' : String) (h : k' ≠ k) :
    lookupField (l.map (fun p => if p.1 = k then (k, v) else p)) k' = lookupField l k' := by
  induction l with
  | nil => rfl
  | cons p rest ih =>
    by_cases hp : p.1 = k
    · simp only [List.map_cons, lookupField, if_pos hp, ih]
      have h1 : ¬(k = k') := fun hh => h hh.symm
      have h2 : ¬(p.1 = k') := fun hh => h1 (hp.symm.trans hh)
      rw [if_neg h1, if_neg h2]
    · simp only [List.map_cons, lookupField, if_neg hp, ih]

theorem lookupField_map_set_self (l : List (String × JVal)) (k : String) (v : JVal)
    (h : l.any (fun p => p.1 = k) = true) :
    lookupField (l.map (fun p => if p.1 = k then (k, v) else p)) k = some v := by
  induction l with
  | nil => simp at h
  | cons p rest ih =>
    by_cases hp : p.1 = k
    · simp only [List.map_cons, lookupField, if_pos hp]
      simp [lookupField]
    · simp only [List.any_cons, Bool.or_eq_true, decide_eq_true_eq] at h
      rcases h with h | h
      · exact absurd h hp
      · simp only [List.map_cons, lookupField, if_neg hp, ih h]

theorem lookupField_append_of_none (l1 l2 : List (String × JVal)) (k : String)
    (h : lookupField l1 k = none) :
    lookupField (l1 ++ l2) k = lookupField l2 k := by
  induction l1 with
  | nil => rfl
  | cons p rest ih =>
    simp only [lookupField, List.cons_append] at h ⊢
    by_cases hp : p.1 = k
    · rw [if_pos hp] at h; cases h
    · rw [if_neg hp] at h ⊢
      exact ih h

theorem lookupField_eq_none_of_not_any (l : List (String × JVal)) (k : String)
    (h : l.any (fun p => p.1 = k) = false) : lookupField l k = none := by
  induction l with
  | nil => rfl
  | cons p rest ih =>
    simp only [List.any_cons, Bool.or_eq_false_iff, decide_eq_false_iff_not] at h
    simp only [lookupField, if_neg h.1, ih h.2]

/-- Reading back the key just set. -/
theorem lookupField_setFields_self (l : List (String × JVal)) (k : String) (v : JVal) :
    lookupField (setFields l k v) k = some v := by
  unfold setFields
  by_cases h : l.any (fun p => p.1 = k) = true
  · rw [if_pos h]; exact lookupField_map_set_self l k v h
  · rw [if_neg h]
    rw [lookupField_append_of_none _ _ _
      (lookupField_eq_none_of_not_any l k (Bool.eq_false_iff.mpr h))]
    simp [lookupField]

theorem lookupField_append_single_ne (l : List (String × JVal)) (k : String) (v : JVal)
    (k' : String) (h : k' ≠ k) :
    lookupField (l ++ [(k, v)]) k' = lookupField l k' := by
  induction l with
  | nil =>
    simp only [List.nil_append, lookupField]
    rw [if_neg (fun hh => h hh.symm)]
  | cons p rest ih =>
    simp only [List.cons_append, List.append_eq, lookupField]
    by_cases hp : p.1 = k'
    · rw [if_pos hp, if_pos hp]
    · rw [if_neg hp, if_neg hp, ih]

/-- Setting one key leaves every other key's binding unchanged. -/
theorem lookupField_setFields_ne (l : List (String × JVal)) (k : String) (v : JVal)
    (k' : String) (h : k' ≠ k) :
    lookupField (setFields l k v) k' = lookupField l k' := by
  unfold setFields
  by_cases ha : l.any (fun p => p.1 = k) = true
  · rw [if_pos ha]; exact lookupField_map_set_ne l k v k' h
  · rw [if_neg ha]; exact lookupField_append_single_ne l k v k' h

theorem getField_set_self (fields : List (String × JVal)) (k : String) (v : JVal) :
    getField (.obj (setFields fields k v)) k = v := by
  simp [getField, lookupField_setFields_self]

theorem getField_set_ne (fields : List (String × JVal)) (k : String) (v : JVal)
    (k' : String) (h : k' ≠ k) :
    getField (.obj (setFields fields k v)) k' = getField (.obj fields) k' := by
  simp [getField, lookupField_setFields_ne _ _ _ _ h]

/-- A fold of assignments none of which touches `k` leaves `k`'s binding alone. -/
theorem lookupField_foldl_setInto_ne (entries : List (String × JVal))
    (l : List (String × JVal)) (k : String) (h : ∀ e ∈ entries, e.1 ≠ k) :
    lookupField (entries.foldl setInto l) k = lookupField l k := by
  induction entries generalizing l with
  | nil => rfl
  | cons e rest ih =>
    rw [List.foldl_cons, ih _ (fun e' he' => h e' (List.mem_cons_of_mem _ he'))]
    exact lookupField_setFields_ne _ _ _ _ (fun hh => h e (List.mem_cons_self _ _) hh.symm)

/-- After a fold of assignments, an assigned key is bound, to one of the values
assigned to it. -/
theorem lookupField_foldl_setInto_mem (entries : List (String × JVal))
    (l : List (String × JVal)) (k : String) (hmem : k ∈ entries.map Prod.fst) :
    ∃ v, lookupField (entries.foldl setInto l) k = some v ∧ (k, v) ∈ entries := by
  induction entries generalizing l with
  | nil => simp at hmem
  | cons e rest ih =>
    by_cases hr : k ∈ rest.map Prod.fst
    · rcases ih (setInto l e) hr with ⟨v, hv, hvm⟩
      exact ⟨v, by rw [List.foldl_cons]; exact hv, List.mem_cons_of_mem _ hvm⟩
    · have hk : e.1 = k := by
        rcases List.mem_map.mp hmem with ⟨e', he', hk'⟩
        rcases List.mem_cons.mp he' with h1 | h1
        · rw [h1] at hk'; exact hk'
        · exact absurd (hk' ▸ List.mem_map_of_mem Prod.fst h1) hr
      have hne : ∀ e' ∈ rest, e'.1 ≠ k := fun e' he' hh =>
        hr (hh ▸ List.mem_map_of_mem Prod.fst he')
      refine ⟨e.2, ?_, ?_⟩
      · rw [List.foldl_cons, lookupField_foldl_setInto_ne rest _ k hne, setInto, hk,
          lookupField_setFields_self]
      · exact hk ▸ List.mem_cons_self e rest

/-- If every assignment to `k` in the fold writes the same value `v`, the fold
binds `k` to `v`. -/
theorem lookupField_foldl_setInto_unique (entries : List (String × JVal))
    (l : List (String × JVal)) (k : String) (v : JVal) (hmem : (k, v) ∈ entries)
    (huni : ∀ e ∈ entries, e.1 = k → e.2 = v) :
    lookupField (entries.foldl setInto l) k = some v := by
  induction entries generalizing l with
  | nil => simp at hmem
  | cons e rest ih =>
    by_cases hr : ∃ e' ∈ rest, e'.1 = k
    · rcases hr with ⟨e', he', hk⟩
      have he2 : e' = (k, v) := by
        have hv := huni e' (List.mem_cons_of_mem _ he') hk
        cases e'
        simp only [Prod.mk.injEq]
        exact ⟨hk, hv⟩
      rw [List.foldl_cons]
      have hm : (k, v) ∈ rest := by rw [← he2]; exact he'
      exact ih (setInto l e) hm (fun e'' he'' => huni e'' (List.mem_cons_of_mem _ he''))
    · have hne : ∀ e' ∈ rest, e'.1 ≠ k := fun e' he' hh => hr ⟨e', he', hh⟩
      have hk : e.1 = k := by
        rcases List.mem_cons.mp hmem with h1 | h1
        · rw [← h1]
        · exact absurd rfl (hne (k, v) h1)
      rw [List.foldl_cons, lookupField_foldl_setInto_ne rest _ k hne, setInto, hk,
        lookupField_setFields_self, huni e (List.mem_cons_self e rest) hk]

/-! ### String-key disambiguation helpers -/

/-- Two strings differing at a common index stay different under arbitrary
suffixes. -/
theorem appendKeyNe (p1 p2 : String) (i : Nat) (h1 : i < p1.data.length)
    (h2 : i < p2.data.length) (hne : p1.data.get ⟨i, h1⟩ ≠ p2.data.get ⟨i, h2⟩)
    (t1 t2 : String) : p1 ++ t1 ≠ p2 ++ t2 := by
  intro h
  have hd : p1.data ++ t1.data = p2.data ++ t2.data := by
    rw [← String.data_append, ← String.data_append, h]
  have hq : (p1.data ++ t1.data)[i]? = (p2.data ++ t2.data)[i]? := by rw [hd]
  rw [List.getElem?_append_left h1, List.getElem?_append_left h2,
    List.getElem?_eq_getElem h1, List.getElem?_eq_getElem h2] at hq
  exact hne (by
    rw [List.get_eq_getElem, List.get_eq_getElem]
    exact Option.some.inj hq)

/-- A key with a dash is never one of the dashless base keys. -/
theorem ne_of_dash (s t : String) (hs : ('-' : Char) ∈ s.data)
    (ht : ('-' : Char) ∉ t.data) : s ≠ t :=
  fun h => ht (h ▸ hs)

theorem dash_mem_append (c t : String) (hc : ('-' : Char) ∈ c.data) :
    ('-' : Char) ∈ (c ++ t).data := by
  rw [String.data_append]
  exact List.mem_append.mpr (Or.inl hc)

/-- Cancelling a shared key stem. -/
theorem appendKeyInj (p t1 t2 : String) (h : p ++ t1 = p ++ t2) : t1 = t2 := by
  have hd : p.data ++ t1.data = p.data ++ t2.data := by
    rw [← String.data_append, ← String.data_append, h]
  have hdd : t1.data = t2.data := List.append_cancel_left hd
  cases t1; cases t2
  exact congrArg String.mk hdd

/-! ### Shared structural facts about the merger -/

/-- The merged record list is, tenant by tenant in input order, the normalized
records stamped with that tenant's identifier. -/
theorem merge_records_eq (rs : List TenantInput) :
    (mergeMultiTenant rs).records =
      rs.flatMap fun inp => (normalize inp.json).records.map (stampTenant inp.tenant) := by
  cases rs with
  | nil => rfl
  | cons r0 rest =>
    show ((r0 :: rest).map normTenant).flatMap NormTenant.records = _
    induction (r0 :: rest) with
    | nil => rfl
    | cons a l ih => simp only [List.map_cons, List.flatMap_cons, ih]; rfl

theorem length_flatMap_eq_sum {α β : Type} (l : List α) (f : α → List β) :
    (l.flatMap f).length = (l.map fun a => (f a).length).sum := by
  induction l with
  | nil => rfl
  | cons a t ih => simp [List.flatMap_cons, ih]

/-! ### C9 -/

/-- C9: `merge([])` returns exactly the canonical empty response
`{records: [], types: [], metadata: {}, metrics: []}`. -/
theorem c9_empty_input :
    mergeMultiTenant [] = ⟨[], [], .obj [], []⟩ := rfl

/-! ### C8 -/

/-- C8: the merged record list is the input-order concatenation of each
tenant's stamped, order-preserved normalized records, so its length is the sum
over tenants of the length of that tenant's normalized record list. -/
theorem c8_record_conservation (rs : List TenantInput) :
    (mergeMultiTenant rs).records =
      (rs.flatMap fun inp => (normalize inp.json).records.map (stampTenant inp.tenant)) ∧
    (mergeMultiTenant rs).records.length =
      (rs.map fun inp => (normalize inp.json).records.length).sum := by
  refine ⟨merge_records_eq rs, ?_⟩
  rw [merge_records_eq rs, length_flatMap_eq_sum]
  simp

/-! ### C4 -/

/-- C4: every merged record comes from stamping some tenant's normalized
record with that tenant's identifier; stamping binds the `tenant` key to
the identifier (overwriting any pre-existing binding) and leaves the binding
of every other key of the row unchanged. -/
theorem c4_tenant_stamping :
    (∀ rs : List TenantInput, (mergeMultiTenant rs).records =
      rs.flatMap fun inp => (normalize inp.json).records.map (stampTenant inp.tenant)) ∧
    (∀ (t : String) (r : JVal), getField (stampTenant t r) "tenant" = .str t) ∧
    (∀ (t : String) (r : JVal) (k : String), k ≠ "tenant" →
      lookupField (spreadFields (stampTenant t r)) k = lookupField (spreadFields r) k) := by
  refine ⟨merge_records_eq, ?_, ?_⟩
  · intro t r
    exact getField_set_self _ _ _
  · intro t r k hk
    exact lookupField_setFields_ne _ _ _ _ hk

/-- C4 witness: a concrete row whose pre-existing `tenant` field is
overwritten while its other field is untouched. -/
theorem c4_tenant_stamping_witness :
    getField (stampTenant "prod" (.obj [("tenant", .str "old"), ("host", .str "h1")]))
      "tenant" = .str "prod" ∧
    lookupField (spreadFields (stampTenant "prod"
        (.obj [("tenant", .str "old"), ("host", .str "h1")]))) "host" =
      lookupField (spreadFields (.obj [("tenant", .str "old"), ("host", .str "h1")])) "host" :=
  ⟨c4_tenant_stamping.2.1 "prod" _,
   c4_tenant_stamping.2.2 "prod" _ "host" (by decide)⟩

/-! ### C2 -/

/-- C2 counterexample: the claim says a bare scalar in `records` becomes a
one-element sequence, but `asArray` sends every falsy value — here the bare
scalar `0` — to the empty sequence. -/
theorem c2_counterexample :
    (normalize (.obj [("records", .num (.fin 0))])).records = [] ∧
    ([] : List JVal) ≠ [.num (.fin 0)] :=
  ⟨rfl, by simp⟩

/-- How one field is coerced to a sequence: an array passes through, a truthy
non-array becomes a singleton, every falsy value becomes the empty sequence. -/
def coercesLike (v : JVal) (out : List JVal) : Prop :=
  (∀ xs, v = .arr xs → out = xs) ∧
  (v.truthy = true → (∀ xs, v ≠ .arr xs) → out = [v]) ∧
  (v.truthy = false → out = [])

theorem asArray_coerces (v : JVal) : coercesLike v (asArray v) := by
  unfold coercesLike
  refine ⟨?_, ?_, ?_⟩
  · intro xs h
    subst h
    rfl
  · intro ht hne
    cases v with
    | arr xs => exact absurd rfl (hne xs)
    | null => simp [JVal.truthy] at ht
    | undef => simp [JVal.truthy] at ht
    | bool b => simp [asArray, ht]
    | num x => simp [asArray, ht]
    | str s => simp [asArray, ht]
    | obj fs => rfl
  · intro hf
    cases v with
    | arr xs => simp [JVal.truthy] at hf
    | null => rfl
    | undef => rfl
    | bool b => simp [asArray, hf]
    | num x => simp [asArray, hf]
    | str s => simp [asArray, hf]
    | obj fs => simp [JVal.truthy] at hf

/-- C2 amended: `normalize` is total by construction; it accepts the payload
wrapped under `result` or bare (`null`/`undefined` fall back to `{}`);
`records`, `types` and `metrics` pass through when already sequences, become
singletons when truthy non-sequences, and become empty for every falsy value
(not only `null`/`undefined`: also `0`, `""`, `false`, `NaN`); `metadata`
defaults to the empty mapping exactly when nullish. -/
theorem c2_normalize_amended (json : JVal) :
    (JVal.isNullish (optChain json "result") = false →
      unwrapResult json = optChain json "result") ∧
    (JVal.isNullish (optChain json "result") = true → JVal.isNullish json = false →
      unwrapResult json = json) ∧
    (JVal.isNullish (optChain json "result") = true → JVal.isNullish json = true →
      unwrapResult json = .obj []) ∧
    coercesLike (getField (unwrapResult json) "records") (normalize json).records ∧
    coercesLike (getField (unwrapResult json) "types") (normalize json).types ∧
    coercesLike (getField (unwrapResult json) "metrics") (normalize json).metrics ∧
    (JVal.isNullish (getField (unwrapResult json) "metadata") = true →
      (normalize json).metadata = .obj []) ∧
    (JVal.isNullish (getField (unwrapResult json) "metadata") = false →
      (normalize json).metadata = getField (unwrapResult json) "metadata") := by
  refine ⟨?_, ?_, ?_, asArray_coerces _, asArray_coerces _, asArray_coerces _, ?_, ?_⟩
  · intro h
    simp [unwrapResult, nullishOr, h]
  · intro h1 h2
    simp [unwrapResult, nullishOr, h1, h2]
  · intro h1 h2
    simp [unwrapResult, nullishOr, h1, h2]
  · intro h
    show nullishOr (getField (unwrapResult json) "metadata") (.obj []) = .obj []
    simp [nullishOr, h]
  · intro h
    show nullishOr (getField (unwrapResult json) "metadata") (.obj []) =
      getField (unwrapResult json) "metadata"
    simp [nullishOr, h]

/-- C2 witness: a wrapped payload with a sequence `records`, a truthy scalar
`metrics`, and no `metadata`. -/
theorem c2_normalize_amended_witness :
    (normalize (.obj [("result", .obj [("records", .arr [.num (.fin 1)]),
        ("metrics", .str "m")])])).records = [.num (.fin 1)] ∧
    (normalize (.obj [("result", .obj [("records", .arr [.num (.fin 1)]),
        ("metrics", .str "m")])])).metrics = [.str "m"] ∧
    (normalize (.obj [("result", .obj [("records", .arr [.num (.fin 1)]),
        ("metrics", .str "m")])])).metadata = .obj [] := by
  have h := c2_normalize_amended (.obj [("result", .obj [("records", .arr [.num (.fin 1)]),
    ("metrics", .str "m")])])
  refine ⟨h.2.2.2.1.1 [.num (.fin 1)] rfl, ?_, h.2.2.2.2.2.2.1 rfl⟩
  exact h.2.2.2.2.2.1.2.1 rfl (fun xs hh => by cases hh)

/-! ### C7 -/

/-- C7: the grouping-clause rewrite leaves text with no `by:{...}` clause
byte-for-byte unchanged; when the leftmost clause exists it keeps the
surrounding text verbatim, keeps the listed fields in order, and appends
`tenant` exactly when it is not already listed; the spec's concrete examples
hold, and non-string values pass through untouched. -/
theorem c7_by_clause_rewrite :
    (∀ s : String, findBy s.data = none → rewriteBy s = s) ∧
    (∀ (s : String) (pre inside suf : List Char),
      findBy s.data = some (pre, inside, suf) →
      rewriteBy s = String.mk pre ++ "by:\x7b" ++
        String.intercalate ", " (withTenantParts (splitParts (String.mk inside))) ++
        "\x7d" ++ String.mk suf ∧
      "tenant" ∈ withTenantParts (splitParts (String.mk inside)) ∧
      (withTenantParts (splitParts (String.mk inside)) = splitParts (String.mk inside) ∨
       withTenantParts (splitParts (String.mk inside)) =
         splitParts (String.mk inside) ++ ["tenant"])) ∧
    rewriteBy "by: { host.name }" = "by:{host.name, tenant}" ∧
    rewriteBy "fetch logs | limit 2" = "fetch logs | limit 2" ∧
    (∀ v : JVal, (∀ s, v ≠ .str s) → addTenantToBy v = v) := by
  refine ⟨?_, ?_, by rfl, by rfl, ?_⟩
  · intro s h
    unfold rewriteBy
    rw [h]
  · intro s pre inside suf h
    refine ⟨by unfold rewriteBy; rw [h], ?_, ?_⟩
    · unfold withTenantParts
      by_cases hc : (splitParts (String.mk inside)).contains "tenant" = true
      · rw [if_pos hc]
        exact List.elem_iff.mp hc
      · rw [if_neg hc]
        exact List.mem_append.mpr (Or.inr (List.mem_singleton.mpr rfl))
    · unfold withTenantParts
      by_cases hc : (splitParts (String.mk inside)).contains "tenant" = true
      · rw [if_pos hc]; exact Or.inl rfl
      · rw [if_neg hc]; exact Or.inr rfl
  · intro v h
    cases v with
    | str s => exact absurd rfl (h s)
    | _ => rfl

/-- C7 witness: a clause already listing `tenant` is normalized but gains no
duplicate, with prefix and suffix kept verbatim. -/
theorem c7_by_clause_rewrite_witness :
    rewriteBy "q | by: {a, tenant} | s" = "q | by:{a, tenant} | s" ∧
    "tenant" ∈ withTenantParts (splitParts "a, tenant") := by
  have h := c7_by_clause_rewrite.2.1 "q | by: {a, tenant} | s"
    "q | ".data "a, tenant".data " | s".data (by rfl)
  exact ⟨by rw [h.1]; rfl, h.2.1⟩

/-! ### Shared facts about the merged metadata -/

theorem truthy_ne_undef (v : JVal) (h : v.truthy = true) : v ≠ .undef := by
  intro hv
  rw [hv] at h
  simp [JVal.truthy] at h

/-- Every per-tenant breakdown key contains a dash. -/
theorem perTenant_key_dash (ns : List NormTenant) (e : String × JVal)
    (he : e ∈ perTenantEntries ns) : ('-' : Char) ∈ e.1.data := by
  simp only [perTenantEntries, List.mem_flatMap] at he
  obtain ⟨n, _, he4⟩ := he
  simp only [List.mem_cons, List.not_mem_nil, or_false] at he4
  rcases he4 with h | h | h | h
  · rw [h]; exact dash_mem_append "scannedRecords-" n.tenant (by decide)
  · rw [h]; exact dash_mem_append "scannedBytes-" n.tenant (by decide)
  · rw [h]; exact dash_mem_append "scannedDataPoints-" n.tenant (by decide)
  · rw [h]; exact dash_mem_append "executionTimeMilliseconds-" n.tenant (by decide)

/-- Every per-tenant breakdown value is a JS number. -/
theorem perTenant_val_num (ns : List NormTenant) (e : String × JVal)
    (he : e ∈ perTenantEntries ns) : ∃ x, e.2 = JVal.num x := by
  simp only [perTenantEntries, List.mem_flatMap] at he
  obtain ⟨n, _, he4⟩ := he
  simp only [List.mem_cons, List.not_mem_nil, or_false] at he4
  rcases he4 with h | h | h | h
  · exact ⟨srOf n.metadata, by rw [h]⟩
  · exact ⟨sbOf n.metadata, by rw [h]⟩
  · exact ⟨sdpOf n.metadata, by rw [h]⟩
  · exact ⟨etmOf n.metadata, by rw [h]⟩

/-- Shape of a per-tenant breakdown entry. -/
theorem perTenant_entry_cases (ns : List NormTenant) (e : String × JVal)
    (he : e ∈ perTenantEntries ns) :
    ∃ n, n ∈ ns ∧
      (e = ("scannedRecords-" ++ n.tenant, .num (srOf n.metadata)) ∨
       e = ("scannedBytes-" ++ n.tenant, .num (sbOf n.metadata)) ∨
       e = ("scannedDataPoints-" ++ n.tenant, .num (sdpOf n.metadata)) ∨
       e = ("executionTimeMilliseconds-" ++ n.tenant, .num (etmOf n.metadata))) := by
  simp only [perTenantEntries, List.mem_flatMap] at he
  obtain ⟨n, hn, he4⟩ := he
  refine ⟨n, hn, ?_⟩
  simp only [List.mem_cons, List.not_mem_nil, or_false] at he4
  exact he4

/-- The `grail` key of the pre-rewrite merged metadata literal. -/
theorem metadataPre_grail (r0 : TenantInput) (rest : List TenantInput) :
    getField (metadataPreOf r0 rest) "grail" = grailObjOf r0 rest := by
  show (lookupField (setFields (setFields _ "grail" _) "executionTimeMilliseconds" _)
    "grail").getD .undef = _
  rw [lookupField_setFields_ne _ _ _ _ (by decide), lookupField_setFields_self]
  rfl

theorem metadataPre_etm (r0 : TenantInput) (rest : List TenantInput) :
    getField (metadataPreOf r0 rest) "executionTimeMilliseconds" =
      .num (totalOf etmOf (r0 :: rest)) := by
  show (lookupField (setFields _ "executionTimeMilliseconds" _)
    "executionTimeMilliseconds").getD .undef = _
  rw [lookupField_setFields_self]
  rfl

/-- The guard `if (metadata?.grail)` is met, so the final metadata is the
pre-rewrite literal with the twice-mutated grail written back. -/
theorem metadataFinal_eq (r0 : TenantInput) (rest : List TenantInput) :
    metadataFinalOf r0 rest =
      jsSet (jsSet (metadataPreOf r0 rest) "grail"
        (jsSet (grailObjOf r0 rest) "canonicalQuery"
          (addTenantToBy (getField (grailObjOf r0 rest) "canonicalQuery"))))
        "grail" (grailRewrittenOf r0 rest) := by
  unfold metadataFinalOf
  rw [if_pos ?hc]
  case hc =>
    show (optChain (metadataPreOf r0 rest) "grail").truthy = true
    rw [show optChain (metadataPreOf r0 rest) "grail" =
      getField (metadataPreOf r0 rest) "grail" from rfl, metadataPre_grail]
    rfl
  rw [metadataPre_grail]
  rfl

theorem metadataFinal_grail (r0 : TenantInput) (rest : List TenantInput) :
    getField (metadataFinalOf r0 rest) "grail" = grailRewrittenOf r0 rest := by
  rw [metadataFinal_eq]
  show getField (.obj (setFields _ "grail" _)) "grail" = _
  exact getField_set_self _ _ _

/-- Outside `grail`, the final metadata agrees with the pre-rewrite literal. -/
theorem metadataFinal_ne (r0 : TenantInput) (rest : List TenantInput) (k : String)
    (hk : k ≠ "grail") :
    getField (metadataFinalOf r0 rest) k = getField (metadataPreOf r0 rest) k := by
  rw [metadataFinal_eq]
  show getField (.obj (setFields (setFields _ "grail" _) "grail" _)) k = _
  rw [getField_set_ne _ _ _ _ hk, getField_set_ne _ _ _ _ hk]
  rfl

theorem metadataFinal_etm (r0 : TenantInput) (rest : List TenantInput) :
    getField (metadataFinalOf r0 rest) "executionTimeMilliseconds" =
      .num (totalOf etmOf (r0 :: rest)) := by
  rw [metadataFinal_ne r0 rest _ (by decide), metadataPre_etm]

/-- The two query-text assignments touch no other grail key. -/
theorem grailRewritten_ne (r0 : TenantInput) (rest : List TenantInput) (k : String)
    (h1 : k ≠ "canonicalQuery") (h2 : k ≠ "query") :
    getField (grailRewrittenOf r0 rest) k = getField (grailObjOf r0 rest) k := by
  unfold grailRewrittenOf
  show getField (.obj (setFields (setFields _ "canonicalQuery" _) "query" _)) k = _
  rw [getField_set_ne _ _ _ _ h2, getField_set_ne _ _ _ _ h1]
  rfl

/-- The per-tenant fold cannot touch a dashless key. -/
theorem grailObj_lookup_nodash (r0 : TenantInput) (rest : List TenantInput)
    (base : List (String × JVal)) (k : String) (hd : ('-' : Char) ∉ k.data) :
    lookupField ((perTenantEntries (normalizedList (r0 :: rest))).foldl setInto base) k =
      lookupField base k :=
  lookupField_foldl_setInto_ne _ _ _ (fun e he hh =>
    ne_of_dash e.1 k (perTenant_key_dash _ e he) hd hh)

theorem grailObj_timezone (r0 : TenantInput) (rest : List TenantInput) :
    getField (grailObjOf r0 rest) "timezone" = tzResolvedOf r0 rest := by
  show (lookupField ((perTenantEntries (normalizedList (r0 :: rest))).foldl setInto _)
    "timezone").getD .undef = _
  rw [grailObj_lookup_nodash r0 rest _ _ (by decide),
    lookupField_setFields_ne _ _ _ _ (by decide),
    lookupField_setFields_ne _ _ _ _ (by decide),
    lookupField_setFields_ne _ _ _ _ (by decide),
    lookupField_setFields_self]
  rfl

theorem grailObj_sr (r0 : TenantInput) (rest : List TenantInput) :
    getField (grailObjOf r0 rest) "scannedRecords" = .num (totalOf srOf (r0 :: rest)) := by
  show (lookupField ((perTenantEntries (normalizedList (r0 :: rest))).foldl setInto _)
    "scannedRecords").getD .undef = _
  rw [grailObj_lookup_nodash r0 rest _ _ (by decide),
    lookupField_setFields_ne _ _ _ _ (by decide),
    lookupField_setFields_ne _ _ _ _ (by decide),
    lookupField_setFields_self]
  rfl

theorem grailObj_sb (r0 : TenantInput) (rest : List TenantInput) :
    getField (grailObjOf r0 rest) "scannedBytes" = .num (totalOf sbOf (r0 :: rest)) := by
  show (lookupField ((perTenantEntries (normalizedList (r0 :: rest))).foldl setInto _)
    "scannedBytes").getD .undef = _
  rw [grailObj_lookup_nodash r0 rest _ _ (by decide),
    lookupField_setFields_ne _ _ _ _ (by decide),
    lookupField_setFields_self]
  rfl

theorem grailObj_sdp (r0 : TenantInput) (rest : List TenantInput) :
    getField (grailObjOf r0 rest) "scannedDataPoints" =
      .num (totalOf sdpOf (r0 :: rest)) := by
  show (lookupField ((perTenantEntries (normalizedList (r0 :: rest))).foldl setInto _)
    "scannedDataPoints").getD .undef = _
  rw [grailObj_lookup_nodash r0 rest _ _ (by decide), lookupField_setFields_self]
  rfl

/-- Any key the per-tenant fold assigns ends up bound to a JS number. -/
theorem grailObj_breakdown_present (r0 : TenantInput) (rest : List TenantInput)
    (k : String)
    (hk : k ∈ (perTenantEntries (normalizedList (r0 :: rest))).map Prod.fst) :
    ∃ x, getField (grailObjOf r0 rest) k = JVal.num x := by
  obtain ⟨v, hv, hvm⟩ := lookupField_foldl_setInto_mem _ _ _ hk
  obtain ⟨x, hx⟩ := perTenant_val_num _ _ hvm
  refine ⟨x, ?_⟩
  show (lookupField ((perTenantEntries (normalizedList (r0 :: rest))).foldl setInto _)
    k).getD .undef = _
  rw [hv]
  simp only [Option.getD_some]
  exact hx

/-- Each tenant contributes its four breakdown keys. -/
theorem perTenant_keys_mem (ns : List NormTenant) (n : NormTenant) (hn : n ∈ ns) :
    ("scannedRecords-" ++ n.tenant) ∈ (perTenantEntries ns).map Prod.fst ∧
    ("scannedBytes-" ++ n.tenant) ∈ (perTenantEntries ns).map Prod.fst ∧
    ("scannedDataPoints-" ++ n.tenant) ∈ (perTenantEntries ns).map Prod.fst ∧
    ("executionTimeMilliseconds-" ++ n.tenant) ∈ (perTenantEntries ns).map Prod.fst := by
  refine ⟨?_, ?_, ?_, ?_⟩
  · exact List.mem_map.mpr ⟨("scannedRecords-" ++ n.tenant, .num (srOf n.metadata)),
      List.mem_flatMap.mpr ⟨n, hn, by simp⟩, rfl⟩
  · exact List.mem_map.mpr ⟨("scannedBytes-" ++ n.tenant, .num (sbOf n.metadata)),
      List.mem_flatMap.mpr ⟨n, hn, by simp⟩, rfl⟩
  · exact List.mem_map.mpr ⟨("scannedDataPoints-" ++ n.tenant, .num (sdpOf n.metadata)),
      List.mem_flatMap.mpr ⟨n, hn, by simp⟩, rfl⟩
  · exact List.mem_map.mpr ⟨("executionTimeMilliseconds-" ++ n.tenant,
      .num (etmOf n.metadata)), List.mem_flatMap.mpr ⟨n, hn, by simp⟩, rfl⟩

/-- The resolved timezone is never `undefined`. -/
theorem tzResolved_ne_undef (r0 : TenantInput) (rest : List TenantInput) :
    tzResolvedOf r0 rest ≠ .undef := by
  unfold tzResolvedOf jsOr
  by_cases h1 : (Option.getD (tzCandOf (r0 :: rest)) .undef).truthy = true
  · rw [if_pos h1]; exact truthy_ne_undef _ h1
  · rw [if_neg h1]
    by_cases h2 : (getField (baseGrailOf r0) "timezone").truthy = true
    · rw [if_pos h2]; exact truthy_ne_undef _ h2
    · rw [if_neg h2]; intro h; cases h

/-! ### C10 -/

/-- C10: for any non-empty input — even with no metadata anywhere — the merged
metadata has a `grail` object holding `timezone` (never undefined) and the
three scan counters as numbers, plus, per input tenant, the four
tenant-suffixed breakdown keys as numbers; the top level carries the summed
`executionTimeMilliseconds`. -/
theorem c10_metadata_keys (r0 : TenantInput) (rest : List TenantInput) :
    (∃ fs, getField (mergeMultiTenant (r0 :: rest)).metadata "grail" = JVal.obj fs) ∧
    getField (mergeMultiTenant (r0 :: rest)).metadata "executionTimeMilliseconds" =
      .num (totalOf etmOf (r0 :: rest)) ∧
    getField (getField (mergeMultiTenant (r0 :: rest)).metadata "grail") "timezone" ≠
      .undef ∧
    getField (getField (mergeMultiTenant (r0 :: rest)).metadata "grail")
      "scannedRecords" = .num (totalOf srOf (r0 :: rest)) ∧
    getField (getField (mergeMultiTenant (r0 :: rest)).metadata "grail")
      "scannedBytes" = .num (totalOf sbOf (r0 :: rest)) ∧
    getField (getField (mergeMultiTenant (r0 :: rest)).metadata "grail")
      "scannedDataPoints" = .num (totalOf sdpOf (r0 :: rest)) ∧
    (∀ inp ∈ r0 :: rest,
      (∃ x, getField (getField (mergeMultiTenant (r0 :: rest)).metadata "grail")
        ("scannedRecords-" ++ inp.tenant) = JVal.num x) ∧
      (∃ x, getField (getField (mergeMultiTenant (r0 :: rest)).metadata "grail")
        ("scannedBytes-" ++ inp.tenant) = JVal.num x) ∧
      (∃ x, getField (getField (mergeMultiTenant (r0 :: rest)).metadata "grail")
        ("scannedDataPoints-" ++ inp.tenant) = JVal.num x) ∧
      (∃ x, getField (getField (mergeMultiTenant (r0 :: rest)).metadata "grail")
        ("executionTimeMilliseconds-" ++ inp.tenant) = JVal.num x)) := by
  have hmd : (mergeMultiTenant (r0 :: rest)).metadata = metadataFinalOf r0 rest := rfl
  rw [hmd, metadataFinal_grail]
  refine ⟨?_, metadataFinal_etm r0 rest, ?_, ?_, ?_, ?_, ?_⟩
  · exact ⟨_, rfl⟩
  · rw [grailRewritten_ne r0 rest _ (by decide) (by decide), grailObj_timezone]
    exact tzResolved_ne_undef r0 rest
  · rw [grailRewritten_ne r0 rest _ (by decide) (by decide), grailObj_sr]
  · rw [grailRewritten_ne r0 rest _ (by decide) (by decide), grailObj_sb]
  · rw [grailRewritten_ne r0 rest _ (by decide) (by decide), grailObj_sdp]
  · intro inp hinp
    have hn : normTenant inp ∈ normalizedList (r0 :: rest) :=
      List.mem_map_of_mem normTenant hinp
    have hkeys := perTenant_keys_mem _ (normTenant inp) hn
    have ht : (normTenant inp).tenant = inp.tenant := rfl
    refine ⟨?_, ?_, ?_, ?_⟩
    · obtain ⟨x, hx⟩ := grailObj_breakdown_present r0 rest _ (ht ▸ hkeys.1)
      exact ⟨x, by
        rw [grailRewritten_ne r0 rest _ (ne_of_dash _ _
          (dash_mem_append "scannedRecords-" inp.tenant (by decide)) (by decide))
          (ne_of_dash _ _
          (dash_mem_append "scannedRecords-" inp.tenant (by decide)) (by decide))]
        exact hx⟩
    · obtain ⟨x, hx⟩ := grailObj_breakdown_present r0 rest _ (ht ▸ hkeys.2.1)
      exact ⟨x, by
        rw [grailRewritten_ne r0 rest _ (ne_of_dash _ _
          (dash_mem_append "scannedBytes-" inp.tenant (by decide)) (by decide))
          (ne_of_dash _ _
          (dash_mem_append "scannedBytes-" inp.tenant (by decide)) (by decide))]
        exact hx⟩
    · obtain ⟨x, hx⟩ := grailObj_breakdown_present r0 rest _ (ht ▸ hkeys.2.2.1)
      exact ⟨x, by
        rw [grailRewritten_ne r0 rest _ (ne_of_dash _ _
          (dash_mem_append "scannedDataPoints-" inp.tenant (by decide)) (by decide))
          (ne_of_dash _ _
          (dash_mem_append "scannedDataPoints-" inp.tenant (by decide)) (by decide))]
        exact hx⟩
    · obtain ⟨x, hx⟩ := grailObj_breakdown_present r0 rest _ (ht ▸ hkeys.2.2.2)
      exact ⟨x, by
        rw [grailRewritten_ne r0 rest _ (ne_of_dash _ _
          (dash_mem_append "executionTimeMilliseconds-" inp.tenant (by decide))
          (by decide)) (ne_of_dash _ _
          (dash_mem_append "executionTimeMilliseconds-" inp.tenant (by decide))
          (by decide))]
        exact hx⟩

/-- C10 witness: a single tenant whose payload is `null`, so no metadata
exists anywhere, still yields every required key. -/
theorem c10_metadata_keys_witness :
    getField (getField (mergeMultiTenant [⟨"A", .null⟩]).metadata "grail")
      "scannedRecords" = .num (totalOf srOf [⟨"A", .null⟩]) ∧
    (∃ x, getField (getField (mergeMultiTenant [⟨"A", .null⟩]).metadata "grail")
      ("scannedRecords-" ++ "A") = JVal.num x) := by
  have h := c10_metadata_keys ⟨"A", .null⟩ []
  exact ⟨h.2.2.2.1, (h.2.2.2.2.2.2 ⟨"A", .null⟩ (List.mem_singleton.mpr rfl)).1⟩

/-! ### C6 -/

theorem find?_first {α : Type} (p : α → Bool) :
    ∀ (l : List α) (a : α), l.find? p = some a →
      p a = true ∧ ∃ pre suf, l = pre ++ a :: suf ∧ ∀ x ∈ pre, p x = false := by
  intro l
  induction l with
  | nil => intro a h; cases h
  | cons x xs ih =>
    intro a h
    by_cases hx : p x = true
    · rw [List.find?_cons_of_pos _ hx] at h
      cases h
      exact ⟨hx, [], xs, rfl, by intro y hy; cases hy⟩
    · rw [List.find?_cons_of_neg _ (Bool.eq_false_iff.mpr hx ▸ by simp [hx])] at h
      obtain ⟨hp, pre, suf, hl, hpre⟩ := ih a h
      refine ⟨hp, x :: pre, suf, by rw [hl, List.cons_append], ?_⟩
      intro y hy
      rcases List.mem_cons.mp hy with rfl | hy
      · exact Bool.eq_false_iff.mpr hx
      · exact hpre y hy

/-- C6 counterexample: a lone tenant reporting the empty-string timezone.  The
claim calls that "present and not Z", so it would resolve to `""`; the code
skips every falsy candidate and falls through to `"Z"`. -/
theorem c6_counterexample :
    getField (getField (mergeMultiTenant [⟨"A", .obj [("metadata",
        .obj [("grail", .obj [("timezone", .str "")])])]⟩]).metadata "grail")
      "timezone" = .str "Z" ∧
    JVal.str "Z" ≠ .str "" :=
  ⟨rfl, by intro h; injection h with h'; exact absurd h' (by decide)⟩

/-- C6 amended: the merged timezone is the first tenant's grail timezone that
is truthy and not `"Z"` (so a present-but-empty timezone is skipped); if none
qualifies it is the first tenant's grail timezone when truthy, else `"Z"`. -/
theorem c6_timezone_amended (r0 : TenantInput) (rest : List TenantInput) :
    (getField (getField (mergeMultiTenant (r0 :: rest)).metadata "grail") "timezone" =
      tzResolvedOf r0 rest) ∧
    (∀ z, tzCandOf (r0 :: rest) = some z →
      getField (getField (mergeMultiTenant (r0 :: rest)).metadata "grail") "timezone" =
        z ∧
      goodTz z = true ∧
      ∃ pre suf,
        ((normalizedList (r0 :: rest)).map fun n =>
          optChain (optChain n.metadata "grail") "timezone") = pre ++ z :: suf ∧
        ∀ x ∈ pre, goodTz x = false) ∧
    (tzCandOf (r0 :: rest) = none →
      ((getField (baseGrailOf r0) "timezone").truthy = true →
        getField (getField (mergeMultiTenant (r0 :: rest)).metadata "grail")
          "timezone" = getField (baseGrailOf r0) "timezone") ∧
      ((getField (baseGrailOf r0) "timezone").truthy = false →
        getField (getField (mergeMultiTenant (r0 :: rest)).metadata "grail")
          "timezone" = .str "Z")) ∧
    (∀ z : JVal, goodTz z = true → z.truthy = true ∧ z ≠ .str "Z") := by
  have hmd : (mergeMultiTenant (r0 :: rest)).metadata = metadataFinalOf r0 rest := rfl
  have htz : getField (getField (mergeMultiTenant (r0 :: rest)).metadata "grail")
      "timezone" = tzResolvedOf r0 rest := by
    rw [hmd, metadataFinal_grail,
      grailRewritten_ne r0 rest _ (by decide) (by decide), grailObj_timezone]
  refine ⟨htz, ?_, ?_, ?_⟩
  · intro z hz
    obtain ⟨hp, pre, suf, hl, hpre⟩ := find?_first goodTz _ z hz
    refine ⟨?_, hp, pre, suf, hl, hpre⟩
    rw [htz]
    unfold tzResolvedOf
    rw [hz]
    simp only [Option.getD_some]
    unfold goodTz at hp
    rw [jsOr, if_pos (Bool.and_elim_left hp)]
  · intro hz
    constructor
    · intro ht
      rw [htz]
      unfold tzResolvedOf
      rw [hz]
      simp only [Option.getD_none]
      rw [jsOr, if_neg (by simp [JVal.truthy]), jsOr, if_pos ht]
    · intro ht
      rw [htz]
      unfold tzResolvedOf
      rw [hz]
      simp only [Option.getD_none]
      rw [jsOr, if_neg (by simp [JVal.truthy]), jsOr, if_neg (by rw [ht]; simp)]
  · intro z hz
    unfold goodTz at hz
    refine ⟨Bool.and_elim_left hz, ?_⟩
    intro hstr
    rw [hstr] at hz
    simp at hz

/-- C6 witness: the spec's two examples — tenant A `"Z"`, tenant B `"-04:00"`
resolves to `"-04:00"`; both `"Z"` resolves to `"Z"`. -/
theorem c6_timezone_amended_witness :
    getField (getField (mergeMultiTenant [⟨"A", .obj [("metadata",
        .obj [("grail", .obj [("timezone", .str "Z")])])]⟩,
      ⟨"B", .obj [("metadata",
        .obj [("grail", .obj [("timezone", .str "-04:00")])])]⟩]).metadata "grail")
      "timezone" = .str "-04:00" ∧
    getField (getField (mergeMultiTenant [⟨"A", .obj [("metadata",
        .obj [("grail", .obj [("timezone", .str "Z")])])]⟩,
      ⟨"B", .obj [("metadata",
        .obj [("grail", .obj [("timezone", .str "Z")])])]⟩]).metadata "grail")
      "timezone" = .str "Z" := by
  constructor
  · exact ((c6_timezone_amended ⟨"A", .obj [("metadata",
      .obj [("grail", .obj [("timezone", .str "Z")])])]⟩
      [⟨"B", .obj [("metadata", .obj [("grail",
        .obj [("timezone", .str "-04:00")])])]⟩]).2.1 (.str "-04:00") rfl).1
  · exact ((c6_timezone_amended ⟨"A", .obj [("metadata",
      .obj [("grail", .obj [("timezone", .str "Z")])])]⟩
      [⟨"B", .obj [("metadata", .obj [("grail",
        .obj [("timezone", .str "Z")])])]⟩]).2.2.1 rfl).1 rfl

/-! ### C3 -/

/-- The four counter-key stems. -/
def counterStems : List String :=
  ["scannedRecords-", "scannedBytes-", "scannedDataPoints-",
   "executionTimeMilliseconds-"]

/-- Distinct stems build distinct keys; a shared stem forces equal tenants. -/
theorem counterKeyInj (c c' : String) (hc : c ∈ counterStems)
    (hc' : c' ∈ counterStems) (t t' : String) (h : c ++ t = c' ++ t') :
    c = c' ∧ t = t' := by
  simp only [counterStems, List.mem_cons, List.not_mem_nil, or_false] at hc hc'
  rcases hc with rfl | rfl | rfl | rfl <;> rcases hc' with rfl | rfl | rfl | rfl <;>
    first
      | exact ⟨rfl, appendKeyInj _ _ _ h⟩
      | exact absurd h (appendKeyNe _ _ 0 (by decide) (by decide) (by decide) _ _)
      | exact absurd h (appendKeyNe _ _ 7 (by decide) (by decide) (by decide) _ _)

/-- With pairwise-distinct tenant identifiers, each breakdown key holds exactly
its own tenant's reading. -/
theorem grailObj_breakdown_value (r0 : TenantInput) (rest : List TenantInput)
    (hnd : ((r0 :: rest).map TenantInput.tenant).Nodup)
    (inp : TenantInput) (hinp : inp ∈ r0 :: rest) (c : String) (f : JVal → JsNum)
    (hcf : (c = "scannedRecords-" ∧ f = srOf) ∨ (c = "scannedBytes-" ∧ f = sbOf) ∨
      (c = "scannedDataPoints-" ∧ f = sdpOf) ∨
      (c = "executionTimeMilliseconds-" ∧ f = etmOf)) :
    getField (grailObjOf r0 rest) (c ++ inp.tenant) =
      .num (f (normalize inp.json).metadata) := by
  have hinj := List.inj_on_of_nodup_map hnd
  have hdiag : ∀ n ∈ normalizedList (r0 :: rest), n.tenant = inp.tenant →
      n = normTenant inp := by
    intro n hn ht
    obtain ⟨inp', hinp', rfl⟩ := List.mem_map.mp hn
    rw [hinj hinp' hinp ht]
  have hcmem : c ∈ counterStems := by
    rcases hcf with ⟨rfl, _⟩ | ⟨rfl, _⟩ | ⟨rfl, _⟩ | ⟨rfl, _⟩ <;> simp [counterStems]
  have hmem : (c ++ inp.tenant, JVal.num (f (normalize inp.json).metadata)) ∈
      perTenantEntries (normalizedList (r0 :: rest)) := by
    refine List.mem_flatMap.mpr ⟨normTenant inp, List.mem_map_of_mem normTenant hinp, ?_⟩
    rcases hcf with ⟨rfl, rfl⟩ | ⟨rfl, rfl⟩ | ⟨rfl, rfl⟩ | ⟨rfl, rfl⟩
    · exact List.mem_cons_self _ _
    · exact List.mem_cons_of_mem _ (List.mem_cons_self _ _)
    · exact List.mem_cons_of_mem _ (List.mem_cons_of_mem _ (List.mem_cons_self _ _))
    · exact List.mem_cons_of_mem _ (List.mem_cons_of_mem _
        (List.mem_cons_of_mem _ (List.mem_cons_self _ _)))
  have huni : ∀ e ∈ perTenantEntries (normalizedList (r0 :: rest)),
      e.1 = c ++ inp.tenant → e.2 = JVal.num (f (normalize inp.json).metadata) := by
    intro e he hkey
    obtain ⟨n, hn, hcase⟩ := perTenant_entry_cases _ e he
    rcases hcase with rfl | rfl | rfl | rfl <;>
    · obtain ⟨hstem, ht⟩ := counterKeyInj _ c (by simp [counterStems]) hcmem _ _ hkey
      rw [hdiag n hn ht]
      rcases hcf with ⟨hb, rfl⟩ | ⟨hb, rfl⟩ | ⟨hb, rfl⟩ | ⟨hb, rfl⟩ <;>
        first
          | rfl
          | exact absurd (hb ▸ hstem) (by decide)
  show (lookupField ((perTenantEntries (normalizedList (r0 :: rest))).foldl setInto _)
    _).getD .undef = _
  rw [lookupField_foldl_setInto_unique _ _ _ _ hmem huni]
  rfl

/-- C3 counterexample: one tenant with the truthy non-numeric
`grail.scannedRecords = "abc"` (the claim's defaulting rule says 0, the code
produces NaN) and with top-level `executionTimeMilliseconds = 0` next to
`grail.executionTimeMilliseconds = 5` (the claim's top-level-precedence rule
says 0, the code's falsy-skipping `||` chain produces 5). -/
theorem c3_counterexample :
    getField (getField (mergeMultiTenant [⟨"A", .obj [("metadata", .obj [
        ("executionTimeMilliseconds", .num (.fin 0)),
        ("grail", .obj [("scannedRecords", .str "abc"),
          ("executionTimeMilliseconds", .num (.fin 5))])])]⟩]).metadata "grail")
      "scannedRecords" = .num .nan ∧
    JVal.num .nan ≠ .num (.fin 0) ∧
    getField (mergeMultiTenant [⟨"A", .obj [("metadata", .obj [
        ("executionTimeMilliseconds", .num (.fin 0)),
        ("grail", .obj [("scannedRecords", .str "abc"),
          ("executionTimeMilliseconds", .num (.fin 5))])])]⟩]).metadata
      "executionTimeMilliseconds" = .num (.fin 5) ∧
    JVal.num (.fin 5) ≠ .num (.fin 0) := by
  refine ⟨rfl, ?_, by with_unfolding_all rfl, ?_⟩
  · intro h; injection h with h'; exact absurd h' (by decide)
  · intro h; injection h with h'; exact absurd h' (by decide)

/-- C3 amended: each counter is read as JS `Number` of the tenant's grail
field when that field is truthy and as 0 when it is falsy (so truthy
non-numeric values give NaN, not 0); the execution-time counter takes the
first truthy of the metadata's top-level field, then the grail field, else 0
(so a present-but-falsy top level does not take precedence); the merged grail
carries the JS sums of the four readings as totals and, assuming distinct
tenant identifiers, one `<counter>-<tenant>` key per counter per tenant
holding that tenant's own reading, simultaneously with the totals. -/
theorem c3_counters_amended (r0 : TenantInput) (rest : List TenantInput)
    (hnd : ((r0 :: rest).map TenantInput.tenant).Nodup) :
    getField (getField (mergeMultiTenant (r0 :: rest)).metadata "grail")
      "scannedRecords" = .num (totalOf srOf (r0 :: rest)) ∧
    getField (getField (mergeMultiTenant (r0 :: rest)).metadata "grail")
      "scannedBytes" = .num (totalOf sbOf (r0 :: rest)) ∧
    getField (getField (mergeMultiTenant (r0 :: rest)).metadata "grail")
      "scannedDataPoints" = .num (totalOf sdpOf (r0 :: rest)) ∧
    getField (mergeMultiTenant (r0 :: rest)).metadata "executionTimeMilliseconds" =
      .num (totalOf etmOf (r0 :: rest)) ∧
    (∀ f : JVal → JsNum, totalOf f (r0 :: rest) =
      sumJs ((r0 :: rest).map fun inp => f (normalize inp.json).metadata)) ∧
    (∀ md : JVal, (getField (grailOfMeta md) "scannedRecords").truthy = true →
      srOf md = jsToNumber (getField (grailOfMeta md) "scannedRecords")) ∧
    (∀ md : JVal, (getField (grailOfMeta md) "scannedRecords").truthy = false →
      srOf md = .fin 0) ∧
    (∀ md : JVal, (optChain md "executionTimeMilliseconds").truthy = true →
      etmOf md = jsToNumber (optChain md "executionTimeMilliseconds")) ∧
    (∀ md : JVal, (optChain md "executionTimeMilliseconds").truthy = false →
      (getField (grailOfMeta md) "executionTimeMilliseconds").truthy = true →
      etmOf md = jsToNumber (getField (grailOfMeta md) "executionTimeMilliseconds")) ∧
    (∀ md : JVal, (optChain md "executionTimeMilliseconds").truthy = false →
      (getField (grailOfMeta md) "executionTimeMilliseconds").truthy = false →
      etmOf md = .fin 0) ∧
    (∀ inp ∈ r0 :: rest,
      getField (getField (mergeMultiTenant (r0 :: rest)).metadata "grail")
        ("scannedRecords-" ++ inp.tenant) =
        .num (srOf (normalize inp.json).metadata) ∧
      getField (getField (mergeMultiTenant (r0 :: rest)).metadata "grail")
        ("scannedBytes-" ++ inp.tenant) =
        .num (sbOf (normalize inp.json).metadata) ∧
      getField (getField (mergeMultiTenant (r0 :: rest)).metadata "grail")
        ("scannedDataPoints-" ++ inp.tenant) =
        .num (sdpOf (normalize inp.json).metadata) ∧
      getField (getField (mergeMultiTenant (r0 :: rest)).metadata "grail")
        ("executionTimeMilliseconds-" ++ inp.tenant) =
        .num (etmOf (normalize inp.json).metadata)) := by
  have hmd : (mergeMultiTenant (r0 :: rest)).metadata = metadataFinalOf r0 rest := rfl
  have hgr : getField (mergeMultiTenant (r0 :: rest)).metadata "grail" =
      grailRewrittenOf r0 rest := by rw [hmd, metadataFinal_grail]
  refine ⟨?_, ?_, ?_, ?_, ?_, ?_, ?_, ?_, ?_, ?_, ?_⟩
  · rw [hgr, grailRewritten_ne r0 rest _ (by decide) (by decide), grailObj_sr]
  · rw [hgr, grailRewritten_ne r0 rest _ (by decide) (by decide), grailObj_sb]
  · rw [hgr, grailRewritten_ne r0 rest _ (by decide) (by decide), grailObj_sdp]
  · rw [hmd, metadataFinal_etm]
  · intro f
    simp [totalOf, normalizedList, List.map_map]
    rfl
  · intro md h
    unfold srOf jsOr
    rw [if_pos h]
  · intro md h
    unfold srOf jsOr
    rw [if_neg (by rw [h]; exact Bool.false_ne_true)]
    rfl
  · intro md h
    unfold etmOf jsOr
    rw [if_pos h]
  · intro md h1 h2
    unfold etmOf jsOr
    rw [if_neg (by rw [h1]; exact Bool.false_ne_true), if_pos h2]
  · intro md h1 h2
    unfold etmOf jsOr
    rw [if_neg (by rw [h1]; exact Bool.false_ne_true),
      if_neg (by rw [h2]; exact Bool.false_ne_true)]
    rfl
  · intro inp hinp
    have hdash : ∀ c : String, c ∈ counterStems → ∀ k : String,
        getField (grailRewrittenOf r0 rest) (c ++ k) =
          getField (grailObjOf r0 rest) (c ++ k) := by
      intro c hcm k
      have hdm : ('-' : Char) ∈ (c ++ k).data := by
        simp only [counterStems, List.mem_cons, List.not_mem_nil, or_false] at hcm
        rcases hcm with rfl | rfl | rfl | rfl <;> exact dash_mem_append _ _ (by decide)
      exact grailRewritten_ne r0 rest _ (ne_of_dash _ _ hdm (by decide))
        (ne_of_dash _ _ hdm (by decide))
    refine ⟨?_, ?_, ?_, ?_⟩
    · rw [hgr, hdash _ (by simp [counterStems]) _]
      exact grailObj_breakdown_value r0 rest hnd inp hinp _ _ (Or.inl ⟨rfl, rfl⟩)
    · rw [hgr, hdash _ (by simp [counterStems]) _]
      exact grailObj_breakdown_value r0 rest hnd inp hinp _ _ (Or.inr (Or.inl ⟨rfl, rfl⟩))
    · rw [hgr, hdash _ (by simp [counterStems]) _]
      exact grailObj_breakdown_value r0 rest hnd inp hinp _ _
        (Or.inr (Or.inr (Or.inl ⟨rfl, rfl⟩)))
    · rw [hgr, hdash _ (by simp [counterStems]) _]
      exact grailObj_breakdown_value r0 rest hnd inp hinp _ _
        (Or.inr (Or.inr (Or.inr ⟨rfl, rfl⟩)))

/-- C3 witness: the spec's 100 + 50 example — totals and both breakdown keys
present at once. -/
theorem c3_counters_amended_witness :
    getField (getField (mergeMultiTenant [⟨"A", .obj [("metadata",
        .obj [("grail", .obj [("scannedRecords", .num (.fin 100))])])]⟩,
      ⟨"B", .obj [("metadata",
        .obj [("grail", .obj [("scannedRecords", .num (.fin 50))])])]⟩]).metadata
      "grail") "scannedRecords" =
      .num (totalOf srOf [⟨"A", .obj [("metadata",
        .obj [("grail", .obj [("scannedRecords", .num (.fin 100))])])]⟩,
      ⟨"B", .obj [("metadata",
        .obj [("grail", .obj [("scannedRecords", .num (.fin 50))])])]⟩]) ∧
    totalOf srOf [⟨"A", .obj [("metadata",
        .obj [("grail", .obj [("scannedRecords", .num (.fin 100))])])]⟩,
      ⟨"B", .obj [("metadata",
        .obj [("grail", .obj [("scannedRecords", .num (.fin 50))])])]⟩] = .fin 150 ∧
    getField (getField (mergeMultiTenant [⟨"A", .obj [("metadata",
        .obj [("grail", .obj [("scannedRecords", .num (.fin 100))])])]⟩,
      ⟨"B", .obj [("metadata",
        .obj [("grail", .obj [("scannedRecords", .num (.fin 50))])])]⟩]).metadata
      "grail") ("scannedRecords-" ++ "A") = .num (.fin 100) ∧
    getField (getField (mergeMultiTenant [⟨"A", .obj [("metadata",
        .obj [("grail", .obj [("scannedRecords", .num (.fin 100))])])]⟩,
      ⟨"B", .obj [("metadata",
        .obj [("grail", .obj [("scannedRecords", .num (.fin 50))])])]⟩]).metadata
      "grail") ("scannedRecords-" ++ "B") = .num (.fin 50) := by
  have h := c3_counters_amended ⟨"A", .obj [("metadata",
      .obj [("grail", .obj [("scannedRecords", .num (.fin 100))])])]⟩
    [⟨"B", .obj [("metadata",
      .obj [("grail", .obj [("scannedRecords", .num (.fin 50))])])]⟩] (by decide)
  refine ⟨h.1, by with_unfolding_all decide, ?_, ?_⟩
  · exact (h.2.2.2.2.2.2.2.2.2.2 ⟨"A", .obj [("metadata",
      .obj [("grail", .obj [("scannedRecords", .num (.fin 100))])])]⟩
      (List.mem_cons_self _ _)).1
  · exact (h.2.2.2.2.2.2.2.2.2.2 ⟨"B", .obj [("metadata",
      .obj [("grail", .obj [("scannedRecords", .num (.fin 50))])])]⟩
      (List.mem_cons_of_mem _ (List.mem_cons_self _ _))).1

/-! ### C1 -/

/-- Sanity of the first tenant's `types[0]`: when truthy it is an object whose
cloned `mappings` (after the `|| {}` default) is an object.  On a payload
violating this, the JS code's property assignments onto a primitive would
throw in strict mode; the embedding's theorems stay within the sane domain,
which includes every real DQL response. -/
def saneDescVal (v : JVal) : Bool :=
  !v.truthy ||
    (match v with
     | .obj _ =>
       (match jsOr (getField (deepClone v) "mappings") (.obj []) with
        | .obj _ => true
        | _ => false)
     | _ => false)

/-- C1 counterexample: the first tenant's descriptor already carries
`tenant: {type: "double"}`; the merge keeps it (the code only adds the
`string` entry when `tenant` is absent or falsy), so the claimed
`mappings.tenant = {type: "string"}` fails. -/
theorem c1_counterexample :
    getField (getField ((mergeMultiTenant [⟨"A", .obj [("types", .arr [.obj
        [("indexRange", .arr [.num (.fin 0), .num (.fin 1)]),
         ("mappings", .obj [("tenant", .obj [("type", .str "double")])])]])]⟩]).types.headD
      .undef) "mappings") "tenant" = .obj [("type", .str "double")] ∧
    JVal.obj [("type", .str "double")] ≠ .obj [("type", .str "string")] := by
  refine ⟨rfl, ?_⟩
  simp

/-- Under the sanity hypothesis, the descriptor entering the tenant-entry step
is an object with an object `mappings`. -/
theorem t0_shape (r0 : TenantInput) (rest : List TenantInput)
    (hsane : saneDescVal ((normTenant r0).types.headD .undef) = true) :
    ∃ tf mf,
      withMappings (preTenantDescriptor (normTenant r0) (allRecordsOf (r0 :: rest))) =
        JVal.obj tf ∧
      getField (withMappings (preTenantDescriptor (normTenant r0)
        (allRecordsOf (r0 :: rest)))) "mappings" = JVal.obj mf := by
  unfold preTenantDescriptor
  by_cases ht : ((normTenant r0).types.headD .undef).truthy = true
  · rw [if_pos ht]
    unfold saneDescVal at hsane
    rw [ht] at hsane
    simp only [Bool.not_true, Bool.false_or] at hsane
    rcases hv : (normTenant r0).types.headD .undef with _ | _ | b | x | s | xs | fs <;>
      rw [hv] at hsane <;> try simp at hsane
    rcases hm : jsOr (getField (deepClone (JVal.obj fs)) "mappings") (.obj [])
      with _ | _ | b' | x' | s' | xs' | mf <;> rw [hm] at hsane <;> try simp at hsane
    refine ⟨setFields (deepCloneFields fs) "mappings" (JVal.obj mf), mf, ?_, ?_⟩
    · have hclone : deepClone (JVal.obj fs) = JVal.obj (deepCloneFields fs) := rfl
      have hpre : jsSet (deepClone (JVal.obj fs)) "mappings"
          (jsOr (getField (deepClone (JVal.obj fs)) "mappings") (.obj [])) =
          JVal.obj (setFields (deepCloneFields fs) "mappings" (JVal.obj mf)) := by
        rw [hm, hclone]
        rfl
      rw [withMappings, hpre]
      rw [if_pos ?htm]
      case htm =>
        show (optChain (JVal.obj _) "mappings").truthy = true
        rw [optChain]
        simp only [JVal.isNullish, Bool.false_eq_true, if_false]
        rw [getField_set_self]
        rfl
    · have hclone : deepClone (JVal.obj fs) = JVal.obj (deepCloneFields fs) := rfl
      have hpre : jsSet (deepClone (JVal.obj fs)) "mappings"
          (jsOr (getField (deepClone (JVal.obj fs)) "mappings") (.obj [])) =
          JVal.obj (setFields (deepCloneFields fs) "mappings" (JVal.obj mf)) := by
        rw [hm, hclone]
        rfl
      rw [withMappings, hpre]
      rw [if_pos ?htm2]
      case htm2 =>
        show (optChain (JVal.obj _) "mappings").truthy = true
        rw [optChain]
        simp only [JVal.isNullish, Bool.false_eq_true, if_false]
        rw [getField_set_self]
        rfl
      exact getField_set_self _ _ _
  · rw [if_neg ht]
    refine ⟨[("indexRange", .arr [.num (.fin 0), .num (.fin 1)]),
      ("mappings", .obj (inferMappings (spreadFields
        (nullishOr ((allRecordsOf (r0 :: rest)).headD .undef) (.obj [])))))],
      inferMappings (spreadFields
        (nullishOr ((allRecordsOf (r0 :: rest)).headD .undef) (.obj []))), ?_, ?_⟩
    · rw [withMappings, if_pos ?hti]
      case hti => rfl
      rfl
    · rw [withMappings, if_pos ?hti2]
      case hti2 => rfl
      rfl

/-- C1 amended: for every non-empty input (whose first tenant's descriptor,
when truthy, is a sane object — see `saneDescVal`), the merged `types` is
exactly one descriptor whose `mappings` carries a truthy `tenant` entry: the
`{type: "string"}` entry when the incoming descriptor's `tenant` entry was
absent or falsy, and the incoming (JSON-cloned) entry itself otherwise. -/
theorem c1_types_amended (r0 : TenantInput) (rest : List TenantInput)
    (hsane : saneDescVal ((normTenant r0).types.headD .undef) = true) :
    (mergeMultiTenant (r0 :: rest)).types = [typesDescOf r0 rest] ∧
    (getField (getField (typesDescOf r0 rest) "mappings") "tenant").truthy = true ∧
    ((getField (getField (withMappings (preTenantDescriptor (normTenant r0)
        (allRecordsOf (r0 :: rest)))) "mappings") "tenant").truthy = false →
      getField (getField (typesDescOf r0 rest) "mappings") "tenant" =
        .obj [("type", .str "string")]) ∧
    ((getField (getField (withMappings (preTenantDescriptor (normTenant r0)
        (allRecordsOf (r0 :: rest)))) "mappings") "tenant").truthy = true →
      getField (getField (typesDescOf r0 rest) "mappings") "tenant" =
        getField (getField (withMappings (preTenantDescriptor (normTenant r0)
          (allRecordsOf (r0 :: rest)))) "mappings") "tenant") := by
  obtain ⟨tf, mf, htf, hmf⟩ := t0_shape r0 rest hsane
  have hd : typesDescOf r0 rest = tenantizedDescriptor (withMappings
      (preTenantDescriptor (normTenant r0) (allRecordsOf (r0 :: rest)))) := rfl
  by_cases htt : (getField (getField (withMappings (preTenantDescriptor (normTenant r0)
      (allRecordsOf (r0 :: rest)))) "mappings") "tenant").truthy = true
  · have hdt : typesDescOf r0 rest = withMappings (preTenantDescriptor (normTenant r0)
        (allRecordsOf (r0 :: rest))) := by
      rw [hd, tenantizedDescriptor, if_pos htt]
    refine ⟨rfl, ?_, ?_, ?_⟩
    · rw [hdt]
      exact htt
    · intro hf
      rw [htt] at hf
      cases hf
    · intro _
      rw [hdt]
  · have hdt : typesDescOf r0 rest =
        jsSet (withMappings (preTenantDescriptor (normTenant r0)
          (allRecordsOf (r0 :: rest)))) "mappings"
          (jsSet (getField (withMappings (preTenantDescriptor (normTenant r0)
            (allRecordsOf (r0 :: rest)))) "mappings") "tenant"
            (.obj [("type", .str "string")])) := by
      rw [hd, tenantizedDescriptor, if_neg htt]
    have hget : getField (getField (typesDescOf r0 rest) "mappings") "tenant" =
        .obj [("type", .str "string")] := by
      rw [hdt, htf]
      have hmf2 : getField (JVal.obj tf) "mappings" = JVal.obj mf := by
        rw [← htf]
        exact hmf
      rw [hmf2]
      show getField (getField (JVal.obj (setFields tf "mappings"
        (jsSet (JVal.obj mf) "tenant" (.obj [("type", .str "string")])))) "mappings")
        "tenant" = _
      rw [getField_set_self]
      show getField (JVal.obj (setFields mf "tenant" _)) "tenant" = _
      exact getField_set_self _ _ _
    refine ⟨rfl, ?_, fun _ => hget, ?_⟩
    · rw [hget]
      rfl
    · intro hcontra
      exact absurd hcontra htt

/-- C1 witness: a tenant with no types and no records takes the inference
fallback; the merged descriptor still carries `tenant: {type: "string"}`. -/
theorem c1_types_amended_witness :
    (mergeMultiTenant [⟨"A", .null⟩]).types = [typesDescOf ⟨"A", .null⟩ []] ∧
    getField (getField (typesDescOf ⟨"A", .null⟩ []) "mappings") "tenant" =
      .obj [("type", .str "string")] := by
  have h := c1_types_amended ⟨"A", .null⟩ [] (by rfl)
  exact ⟨h.1, h.2.2.1 rfl⟩

/-! ### C5 -/

/-- The `minS` half of the widening loop, over an arbitrary reading `g`. -/
def minStepG (g : JVal → JsNum) (acc : JsNum) (rec : JVal) : JsNum :=
  if isFiniteJs (g rec) then jsMin acc (g rec) else acc

/-- The `maxE` half of the widening loop. -/
def maxStepG (g : JVal → JsNum) (acc : JsNum) (rec : JVal) : JsNum :=
  if isFiniteJs (g rec) then jsMax acc (g rec) else acc

theorem tfFold_split : ∀ (recs : List JVal) (a b : JsNum),
    recs.foldl tfStep (a, b) =
      (recs.foldl (minStepG recStart) a, recs.foldl (maxStepG recEnd) b) := by
  intro recs
  induction recs with
  | nil => intro a b; rfl
  | cons r rs ih =>
    intro a b
    rw [List.foldl_cons, List.foldl_cons, List.foldl_cons]
    exact ih _ _

theorem tfFold_eq (recs : List JVal) :
    tfFold recs =
      (recs.foldl (minStepG recStart) .inf, recs.foldl (maxStepG recEnd) .negInf) :=
  tfFold_split recs .inf .negInf

theorem isFiniteJs_fin (v : JsNum) (h : isFiniteJs v = true) : ∃ s, v = .fin s := by
  cases v with
  | fin s => exact ⟨s, rfl⟩
  | _ => simp [isFiniteJs] at h

/-- A min-fold started at a finite value stays finite, never grows, and is a
lower bound of — and, unless it is the seed, attained by — the finite
readings. -/
theorem minFoldG_fin (g : JVal → JsNum) (recs : List JVal) : ∀ p : ℚ,
    ∃ q, recs.foldl (minStepG g) (.fin p) = .fin q ∧ q ≤ p ∧
      (q = p ∨ ∃ rec ∈ recs, g rec = .fin q) ∧
      ∀ rec ∈ recs, ∀ x, g rec = .fin x → q ≤ x := by
  induction recs with
  | nil =>
    intro p
    exact ⟨p, rfl, le_refl p, Or.inl rfl, by intro rec h; cases h⟩
  | cons r rs ih =>
    intro p
    by_cases hf : isFiniteJs (g r) = true
    · obtain ⟨s, hs⟩ := isFiniteJs_fin _ hf
      have hstep : (r :: rs).foldl (minStepG g) (.fin p) =
          rs.foldl (minStepG g) (.fin (min p s)) := by
        rw [List.foldl_cons, minStepG, if_pos hf, hs]
        rfl
      obtain ⟨q, hq, hqle, hqeq, hqall⟩ := ih (min p s)
      refine ⟨q, by rw [hstep]; exact hq,
        le_trans hqle (min_le_left _ _), ?_, ?_⟩
      · rcases hqeq with rfl | ⟨rec, hrec, hx⟩
        · rcases le_total p s with hps | hps
          · exact Or.inl (min_eq_left hps)
          · exact Or.inr ⟨r, List.mem_cons_self _ _, by rw [hs, min_eq_right hps]⟩
        · exact Or.inr ⟨rec, List.mem_cons_of_mem _ hrec, hx⟩
      · intro rec hrec x hx
        rcases List.mem_cons.mp hrec with rfl | hrec
        · have hxs : x = s := by
            rw [hs] at hx
            injection hx with hxx
            exact hxx.symm
          rw [hxs]
          exact le_trans hqle (min_le_right _ _)
        · exact hqall rec hrec x hx
    · have hstep : (r :: rs).foldl (minStepG g) (.fin p) =
          rs.foldl (minStepG g) (.fin p) := by
        rw [List.foldl_cons, minStepG, if_neg hf]
      obtain ⟨q, hq, hqle, hqeq, hqall⟩ := ih p
      refine ⟨q, by rw [hstep]; exact hq, hqle, ?_, ?_⟩
      · rcases hqeq with rfl | ⟨rec, hrec, hx⟩
        · exact Or.inl rfl
        · exact Or.inr ⟨rec, List.mem_cons_of_mem _ hrec, hx⟩
      · intro rec hrec x hx
        rcases List.mem_cons.mp hrec with rfl | hrec
        · rw [hx] at hf
          simp [isFiniteJs] at hf
        · exact hqall rec hrec x hx

/-- From the `Infinity` seed, the min-fold is either still `Infinity` with no
finite reading at all, or the attained minimum of the finite readings. -/
theorem minFoldG_spec (g : JVal → JsNum) (recs : List JVal) :
    (recs.foldl (minStepG g) .inf = .inf ∧
      ∀ rec ∈ recs, isFiniteJs (g rec) = false) ∨
    (∃ q, recs.foldl (minStepG g) .inf = .fin q ∧
      (∃ rec ∈ recs, g rec = .fin q) ∧
      ∀ rec ∈ recs, ∀ x, g rec = .fin x → q ≤ x) := by
  induction recs with
  | nil => exact Or.inl ⟨rfl, by intro rec h; cases h⟩
  | cons r rs ih =>
    by_cases hf : isFiniteJs (g r) = true
    · obtain ⟨s, hs⟩ := isFiniteJs_fin _ hf
      have hstep : (r :: rs).foldl (minStepG g) .inf =
          rs.foldl (minStepG g) (.fin s) := by
        rw [List.foldl_cons, minStepG, if_pos hf, hs]
        rfl
      obtain ⟨q, hq, hqle, hqeq, hqall⟩ := minFoldG_fin g rs s
      refine Or.inr ⟨q, by rw [hstep]; exact hq, ?_, ?_⟩
      · rcases hqeq with rfl | ⟨rec, hrec, hx⟩
        · exact ⟨r, List.mem_cons_self _ _, hs⟩
        · exact ⟨rec, List.mem_cons_of_mem _ hrec, hx⟩
      · intro rec hrec x hx
        rcases List.mem_cons.mp hrec with rfl | hrec
        · have hxs : x = s := by
            rw [hs] at hx
            injection hx with hxx
            exact hxx.symm
          rw [hxs]
          exact hqle
        · exact hqall rec hrec x hx
    · have hstep : (r :: rs).foldl (minStepG g) .inf =
          rs.foldl (minStepG g) .inf := by
        rw [List.foldl_cons, minStepG, if_neg hf]
      rcases ih with ⟨h1, h2⟩ | ⟨q, hq, hex, hall⟩
      · refine Or.inl ⟨by rw [hstep]; exact h1, ?_⟩
        intro rec hrec
        rcases List.mem_cons.mp hrec with rfl | hrec
        · exact Bool.eq_false_iff.mpr hf
        · exact h2 rec hrec
      · refine Or.inr ⟨q, by rw [hstep]; exact hq,
          ⟨hex.choose, List.mem_cons_of_mem _ hex.choose_spec.1, hex.choose_spec.2⟩, ?_⟩
        intro rec hrec x hx
        rcases List.mem_cons.mp hrec with rfl | hrec
        · rw [hx] at hf
          simp [isFiniteJs] at hf
        · exact hall rec hrec x hx

/-- Mirror of `minFoldG_fin` for the max-fold. -/
theorem maxFoldG_fin (g : JVal → JsNum) (recs : List JVal) : ∀ p : ℚ,
    ∃ q, recs.foldl (maxStepG g) (.fin p) = .fin q ∧ p ≤ q ∧
      (q = p ∨ ∃ rec ∈ recs, g rec = .fin q) ∧
      ∀ rec ∈ recs, ∀ x, g rec = .fin x → x ≤ q := by
  induction recs with
  | nil =>
    intro p
    exact ⟨p, rfl, le_refl p, Or.inl rfl, by intro rec h; cases h⟩
  | cons r rs ih =>
    intro p
    by_cases hf : isFiniteJs (g r) = true
    · obtain ⟨s, hs⟩ := isFiniteJs_fin _ hf
      have hstep : (r :: rs).foldl (maxStepG g) (.fin p) =
          rs.foldl (maxStepG g) (.fin (max p s)) := by
        rw [List.foldl_cons, maxStepG, if_pos hf, hs]
        rfl
      obtain ⟨q, hq, hqle, hqeq, hqall⟩ := ih (max p s)
      refine ⟨q, by rw [hstep]; exact hq,
        le_trans (le_max_left _ _) hqle, ?_, ?_⟩
      · rcases hqeq with rfl | ⟨rec, hrec, hx⟩
        · rcases le_total s p with hps | hps
          · exact Or.inl (max_eq_left hps)
          · exact Or.inr ⟨r, List.mem_cons_self _ _, by rw [hs, max_eq_right hps]⟩
        · exact Or.inr ⟨rec, List.mem_cons_of_mem _ hrec, hx⟩
      · intro rec hrec x hx
        rcases List.mem_cons.mp hrec with rfl | hrec
        · have hxs : x = s := by
            rw [hs] at hx
            injection hx with hxx
            exact hxx.symm
          rw [hxs]
          exact le_trans (le_max_right _ _) hqle
        · exact hqall rec hrec x hx
    · have hstep : (r :: rs).foldl (maxStepG g) (.fin p) =
          rs.foldl (maxStepG g) (.fin p) := by
        rw [List.foldl_cons, maxStepG, if_neg hf]
      obtain ⟨q, hq, hqle, hqeq, hqall⟩ := ih p
      refine ⟨q, by rw [hstep]; exact hq, hqle, ?_, ?_⟩
      · rcases hqeq with rfl | ⟨rec, hrec, hx⟩
        · exact Or.inl rfl
        · exact Or.inr ⟨rec, List.mem_cons_of_mem _ hrec, hx⟩
      · intro rec hrec x hx
        rcases List.mem_cons.mp hrec with rfl | hrec
        · rw [hx] at hf
          simp [isFiniteJs] at hf
        · exact hqall rec hrec x hx

/-- Mirror of `minFoldG_spec` for the max-fold. -/
theorem maxFoldG_spec (g : JVal → JsNum) (recs : List JVal) :
    (recs.foldl (maxStepG g) .negInf = .negInf ∧
      ∀ rec ∈ recs, isFiniteJs (g rec) = false) ∨
    (∃ q, recs.foldl (maxStepG g) .negInf = .fin q ∧
      (∃ rec ∈ recs, g rec = .fin q) ∧
      ∀ rec ∈ recs, ∀ x, g rec = .fin x → x ≤ q) := by
  induction recs with
  | nil => exact Or.inl ⟨rfl, by intro rec h; cases h⟩
  | cons r rs ih =>
    by_cases hf : isFiniteJs (g r) = true
    · obtain ⟨s, hs⟩ := isFiniteJs_fin _ hf
      have hstep : (r :: rs).foldl (maxStepG g) .negInf =
          rs.foldl (maxStepG g) (.fin s) := by
        rw [List.foldl_cons, maxStepG, if_pos hf, hs]
        rfl
      obtain ⟨q, hq, hqle, hqeq, hqall⟩ := maxFoldG_fin g rs s
      refine Or.inr ⟨q, by rw [hstep]; exact hq, ?_, ?_⟩
      · rcases hqeq with rfl | ⟨rec, hrec, hx⟩
        · exact ⟨r, List.mem_cons_self _ _, hs⟩
        · exact ⟨rec, List.mem_cons_of_mem _ hrec, hx⟩
      · intro rec hrec x hx
        rcases List.mem_cons.mp hrec with rfl | hrec
        · have hxs : x = s := by
            rw [hs] at hx
            injection hx with hxx
            exact hxx.symm
          rw [hxs]
          exact hqle
        · exact hqall rec hrec x hx
    · have hstep : (r :: rs).foldl (maxStepG g) .negInf =
          rs.foldl (maxStepG g) .negInf := by
        rw [List.foldl_cons, maxStepG, if_neg hf]
      rcases ih with ⟨h1, h2⟩ | ⟨q, hq, hex, hall⟩
      · refine Or.inl ⟨by rw [hstep]; exact h1, ?_⟩
        intro rec hrec
        rcases List.mem_cons.mp hrec with rfl | hrec
        · exact Bool.eq_false_iff.mpr hf
        · exact h2 rec hrec
      · refine Or.inr ⟨q, by rw [hstep]; exact hq,
          ⟨hex.choose, List.mem_cons_of_mem _ hex.choose_spec.1, hex.choose_spec.2⟩, ?_⟩
        intro rec hrec x hx
        rcases List.mem_cons.mp hrec with rfl | hrec
        · rw [hx] at hf
          simp [isFiniteJs] at hf
        · exact hall rec hrec x hx

/-- C5: the widener preserves every other base-metadata field and every other
grail field; when both loop results are finite it writes
`{start: iso(minStart), end: iso(maxEnd)}` — the fold results being exactly
the attained minimum of the finite parsed starts and maximum of the finite
parsed ends, and infinite exactly when no record contributes a finite value;
otherwise it writes the base grail's own `analysisTimeframe` back unchanged. -/
theorem c5_timeframe_widener (records : List JVal) (baseMeta : JVal) :
    (∀ k, k ≠ "grail" →
      lookupField (spreadFields (globalTimeframe records baseMeta)) k =
        lookupField (spreadFields baseMeta) k) ∧
    (∀ k, k ≠ "analysisTimeframe" →
      lookupField (spreadFields (getField (globalTimeframe records baseMeta) "grail"))
        k = lookupField (spreadFields (grailBaseOf baseMeta)) k) ∧
    (∀ qs qe : ℚ, (tfFold records).1 = .fin qs → (tfFold records).2 = .fin qe →
      getField (getField (globalTimeframe records baseMeta) "grail")
        "analysisTimeframe" =
        .obj [("start", .str (isoString (truncRat qs))),
              ("end", .str (isoString (truncRat qe)))]) ∧
    ((isFiniteJs (tfFold records).1 && isFiniteJs (tfFold records).2) = false →
      getField (getField (globalTimeframe records baseMeta) "grail")
        "analysisTimeframe" = getField (grailBaseOf baseMeta) "analysisTimeframe") ∧
    (∀ qs : ℚ, (tfFold records).1 = .fin qs →
      (∃ rec ∈ records, recStart rec = .fin qs) ∧
      ∀ rec ∈ records, ∀ x, recStart rec = .fin x → qs ≤ x) ∧
    ((tfFold records).1 = .inf ↔
      ∀ rec ∈ records, isFiniteJs (recStart rec) = false) ∧
    (∀ qe : ℚ, (tfFold records).2 = .fin qe →
      (∃ rec ∈ records, recEnd rec = .fin qe) ∧
      ∀ rec ∈ records, ∀ x, recEnd rec = .fin x → x ≤ qe) ∧
    ((tfFold records).2 = .negInf ↔
      ∀ rec ∈ records, isFiniteJs (recEnd rec) = false) := by
  have hres : globalTimeframe records baseMeta =
      .obj (setFields (spreadFields baseMeta) "grail"
        (.obj (setFields (spreadFields (grailBaseOf baseMeta)) "analysisTimeframe"
          (if isFiniteJs (tfFold records).1 && isFiniteJs (tfFold records).2 then
            .obj [("start", .str (isoOfJsNum (tfFold records).1)),
                  ("end", .str (isoOfJsNum (tfFold records).2))]
          else getField (grailBaseOf baseMeta) "analysisTimeframe")))) := rfl
  have hgr : getField (globalTimeframe records baseMeta) "grail" =
      .obj (setFields (spreadFields (grailBaseOf baseMeta)) "analysisTimeframe"
        (if isFiniteJs (tfFold records).1 && isFiniteJs (tfFold records).2 then
          .obj [("start", .str (isoOfJsNum (tfFold records).1)),
                ("end", .str (isoOfJsNum (tfFold records).2))]
        else getField (grailBaseOf baseMeta) "analysisTimeframe")) := by
    rw [hres]
    exact getField_set_self _ _ _
  refine ⟨?_, ?_, ?_, ?_, ?_, ?_, ?_, ?_⟩
  · intro k hk
    rw [hres]
    exact lookupField_setFields_ne _ _ _ _ hk
  · intro k hk
    rw [hgr]
    exact lookupField_setFields_ne _ _ _ _ hk
  · intro qs qe hqs hqe
    rw [hgr, getField_set_self, hqs, hqe]
    rfl
  · intro hguard
    rw [hgr, getField_set_self, hguard]
    rfl
  · intro qs hqs
    rw [tfFold_eq] at hqs
    rcases minFoldG_spec recStart records with ⟨h1, _⟩ | ⟨q, hq, hex, hall⟩
    · rw [h1] at hqs
      cases hqs
    · rw [hq] at hqs
      injection hqs with hqq
      rw [← hqq]
      exact ⟨hex, hall⟩
  · constructor
    · intro hinf
      rw [tfFold_eq] at hinf
      rcases minFoldG_spec recStart records with ⟨_, h2⟩ | ⟨q, hq, _, _⟩
      · exact h2
      · rw [hq] at hinf
        cases hinf
    · intro hall
      rw [tfFold_eq]
      rcases minFoldG_spec recStart records with ⟨h1, _⟩ | ⟨q, _, ⟨rec, hrec, hx⟩, _⟩
      · exact h1
      · have hc := hall rec hrec
        rw [hx] at hc
        simp [isFiniteJs] at hc
  · intro qe hqe
    rw [tfFold_eq] at hqe
    rcases maxFoldG_spec recEnd records with ⟨h1, _⟩ | ⟨q, hq, hex, hall⟩
    · rw [h1] at hqe
      cases hqe
    · rw [hq] at hqe
      injection hqe with hqq
      rw [← hqq]
      exact ⟨hex, hall⟩
  · constructor
    · intro hinf
      rw [tfFold_eq] at hinf
      rcases maxFoldG_spec recEnd records with ⟨_, h2⟩ | ⟨q, hq, _, _⟩
      · exact h2
      · rw [hq] at hinf
        cases hinf
    · intro hall
      rw [tfFold_eq]
      rcases maxFoldG_spec recEnd records with ⟨h1, _⟩ | ⟨q, _, ⟨rec, hrec, hx⟩, _⟩
      · exact h1
      · have hc := hall rec hrec
        rw [hx] at hc
        simp [isFiniteJs] at hc

/-- C5 witness: two overlapping record timeframes widen to their union in ISO
form, and with no records the base grail's `analysisTimeframe` is kept. -/
theorem c5_timeframe_widener_witness :
    getField (getField (globalTimeframe
        [.obj [("timeframe", .obj [("start", .str "2020-01-01T00:00:00.000Z"),
            ("end", .str "2020-01-03T00:00:00.000Z")])],
         .obj [("timeframe", .obj [("start", .str "2020-01-02T00:00:00.000Z"),
            ("end", .str "2020-01-04T00:00:00.000Z")])]]
        (.obj [("note", .str "n"), ("grail", .obj [("q", .str "x")])])) "grail")
      "analysisTimeframe" =
      .obj [("start", .str (isoString (truncRat 1577836800000))),
            ("end", .str (isoString (truncRat 1578096000000)))] ∧
    isoString (truncRat 1577836800000) = "2020-01-01T00:00:00.000Z" ∧
    getField (getField (globalTimeframe []
        (.obj [("grail", .obj [("analysisTimeframe", .str "keep")])])) "grail")
      "analysisTimeframe" =
      getField (grailBaseOf (.obj [("grail",
        .obj [("analysisTimeframe", .str "keep")])])) "analysisTimeframe" ∧
    getField (grailBaseOf (.obj [("grail",
      .obj [("analysisTimeframe", .str "keep")])])) "analysisTimeframe" = .str "keep" := by
  refine ⟨?_, by decide, ?_, rfl⟩
  · exact (c5_timeframe_widener
      [.obj [("timeframe", .obj [("start", .str "2020-01-01T00:00:00.000Z"),
          ("end", .str "2020-01-03T00:00:00.000Z")])],
       .obj [("timeframe", .obj [("start", .str "2020-01-02T00:00:00.000Z"),
          ("end", .str "2020-01-04T00:00:00.000Z")])]]
      (.obj [("note", .str "n"), ("grail", .obj [("q", .str "x")])])).2.2.1
      1577836800000 1578096000000 (by decide) (by decide)
  · exact (c5_timeframe_widener []
      (.obj [("grail", .obj [("analysisTimeframe", .str "keep")])])).2.2.2.1 rfl

end DtDash
